import Mathlib

/-!
# IPv4 subnet arithmetic (`subnet.c`, `subnet.h`)

A shallow embedding of the C sources.  Machine integers are natural numbers
reduced modulo `2^w` wherever the C operation can wrap; text buffers are
`String`s built from character lists, with `snprintf` truncation kept.  Heap
allocation (`malloc`) is taken to succeed.  Library routines (`sscanf`,
`inet_addr`, `ntohl`, `printf` conversions) follow ISO C / POSIX.
-/

namespace SubnetC

/-! ## Fixed-width arithmetic -/

/-- Number of values of a `uint32_t`. -/
def U32 : Nat := 2 ^ 32

/-- Number of values of a `uint16_t`. -/
def U16 : Nat := 2 ^ 16

/-- Unsigned 32-bit addition, wrapping. -/
def add32 (a b : Nat) : Nat := (a + b) % U32

/-- Unsigned 32-bit subtraction, wrapping (operands below `2^32`). -/
def sub32 (a b : Nat) : Nat := (a + (U32 - b % U32)) % U32

/-- Bitwise complement `~a` of a `uint32_t`. -/
def not32 (a : Nat) : Nat := (U32 - 1) - a % U32

/-- Left shift `a << s` of a `uint32_t`; the bits shifted past bit 31 are lost.
C defines it only for `0 <= s < 32`. -/
def shl32 (a s : Nat) : Nat := (a <<< s) % U32

/-- Conversion of a C `int` value to `uint32_t`. -/
def int_to_u32 (z : Int) : Nat := (z % (2 ^ 32 : Int)).toNat

/-! ## Data model (`subnet.h`) -/

/-- The struct `Subnet`: `uint32_t ip; uint32_t mask;`. -/
structure Subnet where
  ip : Nat
  mask : Nat
deriving DecidableEq, Repr

/-- The struct `IPAddress`: `uint32_t ip; char ip_class;`. -/
structure IPAddress where
  ip : Nat
  ip_class : Char
deriving DecidableEq, Repr

/-- The constant `ALL_ONES_MASK = 0xFFFFFFFFU`. -/
def ALL_ONES_MASK : Nat := 0xFFFFFFFF

/-- The table `SUBNET_TABLE[3][9]` of `uint16_t`. -/
def SUBNET_TABLE : List (List Nat) :=
  [[1, 2, 4, 8, 16, 32, 64, 128, 256],
   [256, 128, 64, 32, 16, 8, 4, 2, 1],
   [24, 25, 26, 27, 28, 29, 30, 31, 32]]

/-- The array `subnet_mask_dd` (entries for /24 up to /32). -/
def subnet_mask_dd : List String :=
  ["255.255.255.0", "255.255.255.128", "255.255.255.192", "255.255.255.224",
   "255.255.255.240", "255.255.255.248", "255.255.255.252", "255.255.255.254",
   "255.255.255.255"]

/-! ## Subnet arithmetic (`subnet.c`) -/

/-- The function `create_subnet`: `{.ip = ip, .mask = ALL_ONES_MASK << (32 - prefix_length)}`.
The shift amount is defined in C for `1 <= prefix_length <= 32` only. -/
def create_subnet (ip prefix_length : Nat) : Subnet :=
  { ip := ip, mask := shl32 ALL_ONES_MASK (32 - prefix_length) }

/-- The function `classify_ip`: a cascade of tests on the leading bits. -/
def classify_ip (addr : IPAddress) : Char :=
  if addr.ip &&& 0x80000000 = 0 then 'A'
  else if addr.ip &&& 0xC0000000 = 0x80000000 then 'B'
  else if addr.ip &&& 0xE0000000 = 0xC0000000 then 'C'
  else if addr.ip &&& 0xF0000000 = 0xE0000000 then 'D'
  else 'E'

/-- The function `assignable_range`; the two out-parameters are returned as a pair
`(start, end)`.  `classify_ip` reads the `ip` field just stored. -/
def assignable_range (subnet : Subnet) : IPAddress × IPAddress :=
  let start_ip := add32 (subnet.ip &&& subnet.mask) 1
  let end_ip := sub32 (subnet.ip ||| not32 subnet.mask) 1
  ({ ip := start_ip, ip_class := classify_ip { ip := start_ip, ip_class := 'A' } },
   { ip := end_ip, ip_class := classify_ip { ip := end_ip, ip_class := 'A' } })

/-- The function `compute_assignable_addresses`: `(~subnet.mask) - 2`. -/
def compute_assignable_addresses (subnet : Subnet) : Nat :=
  sub32 (not32 subnet.mask) 2

/-! ## Text output -/

/-- The conversion `%u` of `printf`: decimal digits, no padding. -/
def fmt_u (n : Nat) : List Char := Nat.toDigits 10 n

/-- The conversion `%d` of `printf`. -/
def fmt_d (z : Int) : List Char :=
  if z < 0 then '-' :: Nat.toDigits 10 z.natAbs else Nat.toDigits 10 z.natAbs

/-- What `snprintf(buf, size, ...)` leaves in `buf` when the full output would be
`out`: at most `size - 1` characters are kept. -/
def snprintf (size : Nat) (out : List Char) : String := String.mk (out.take (size - 1))

/-- Output of the format `"%u.%u.%u.%u"` applied to
`(ip >> 24) & 0xFF, (ip >> 16) & 0xFF, (ip >> 8) & 0xFF, ip & 0xFF`. -/
def fmt_ip (ip : Nat) : List Char :=
  fmt_u ((ip >>> 24) &&& 0xFF) ++ '.' :: fmt_u ((ip >>> 16) &&& 0xFF) ++
    '.' :: fmt_u ((ip >>> 8) &&& 0xFF) ++ '.' :: fmt_u (ip &&& 0xFF)

/-- The text `A.B.C.D` of four numbers printed in decimal (`%u.%u.%u.%u`). -/
def dotted_quad (a b c d : Nat) : List Char :=
  fmt_u a ++ '.' :: fmt_u b ++ '.' :: fmt_u c ++ '.' :: fmt_u d

/-- The struct `IPV4`: `char addr[16]`. -/
structure IPV4 where
  addr : String
deriving DecidableEq, Repr

/-- The function `to_ipv4`. -/
def to_ipv4 (ip : Nat) : IPV4 := { addr := snprintf 16 (fmt_ip ip) }

/-- The loop of `print_ips_in_subnet`, `for (ip = subnet.ip; ip <= last; ip++)`,
returning the lines printed.  With `last = 0xFFFFFFFF` the C loop never ends;
`none` is returned when the fuel runs out. -/
def print_ips_loop : Nat → Nat → Nat → Option (List String)
  | 0, _, _ => none
  | fuel + 1, ip, last =>
    if ip ≤ last then
      (print_ips_loop fuel (add32 ip 1) last).map (fun rest => String.mk (fmt_ip ip) :: rest)
    else some []

/-- The function `print_ips_in_subnet`: the lines written to standard output. -/
def print_ips_in_subnet (fuel : Nat) (subnet : Subnet) : Option (List String) :=
  print_ips_loop fuel subnet.ip (subnet.ip ||| not32 subnet.mask)

/-- The filling loop of `get_ips_in_subnet`: `num_addresses` iterations, each
storing the text of `start_ip` and incrementing it. -/
def ips_loop : Nat → Nat → List IPV4
  | 0, _ => []
  | n + 1, start_ip => { addr := snprintf 16 (fmt_ip start_ip) } :: ips_loop n (add32 start_ip 1)

/-- The function `get_ips_in_subnet`: the array returned and the value stored in `*num_ips`. -/
def get_ips_in_subnet (subnet : Subnet) : List IPV4 × Nat :=
  let start_ip := add32 subnet.ip 1
  let end_ip := sub32 (subnet.ip ||| not32 subnet.mask) 1
  let num_addresses := add32 (sub32 end_ip start_ip) 1
  (ips_loop num_addresses start_ip, num_addresses)

/-! ## Parsing (`sscanf`, `inet_addr`, `ntohl`) -/

/-- How a call can fail.  The first three end the process (`perror` then `exit`)
inside `create_subnet_from_string`; `range` is the `NULL` returned by
`get_subnet_table` for a bad count; `out_of_bounds` is an array read past its
end; `out_of_fuel` is a loop that has not finished within the fuel given. -/
inductive Failure where
  | invalid_format
  | invalid_address
  | invalid_prefix_length
  | range
  | out_of_bounds
  | out_of_fuel
deriving DecidableEq, Repr

deriving instance DecidableEq for Except

/-- The C predicate `isspace` in the "C" locale. -/
def isspace (c : Char) : Bool :=
  c = ' ' || c = '\t' || c = '\n' || c = '\x0b' || c = '\x0c' || c = '\r'

/-- Value of a character as a digit in bases up to 16, if it is one. -/
def digit_val (c : Char) : Option Nat :=
  if '0' ≤ c ∧ c ≤ '9' then some (c.toNat - 48)
  else if 'a' ≤ c ∧ c ≤ 'f' then some (c.toNat - 87)
  else if 'A' ≤ c ∧ c ≤ 'F' then some (c.toNat - 55)
  else none

/-- Reads the longest run of digits of base `b`, accumulating onto `acc`;
returns the value and the unread rest. -/
def scan_base (b : Nat) : List Char → Nat → Nat × List Char
  | [], acc => (acc, [])
  | c :: cs, acc =>
    match digit_val c with
    | some d => if d < b then scan_base b cs (acc * b + d) else (acc, c :: cs)
    | none => (acc, c :: cs)

/-- The conversion `%d` of `sscanf`: white space is skipped, then an optional sign
and at least one decimal digit are read.  ISO C leaves the result undefined when
the value does not fit an `int`; the value read is returned as it stands. -/
def scan_d (s : List Char) : Option Int :=
  let body (t : List Char) : Option Nat :=
    match t with
    | [] => none
    | c :: _ => if '0' ≤ c ∧ c ≤ '9' then some (scan_base 10 t 0).1 else none
  match s.dropWhile isspace with
  | '-' :: t => (body t).map (fun (n : Nat) => -(n : Int))
  | '+' :: t => (body t).map (fun (n : Nat) => (n : Int))
  | t => (body t).map (fun (n : Nat) => (n : Int))

/-- The call `sscanf(subnet_string, "%15[^/]/%d", ip_part, &prefix_length)`:
`some` exactly when it returns 2.  `%15[^/]` takes one to fifteen characters
other than `/`; a `/` must follow; then `%d`. -/
def sscanf_subnet (s : List Char) : Option (List Char × Int) :=
  let ip_part := (s.takeWhile (fun c => c ≠ '/')).take 15
  if ip_part = [] then none
  else
    match s.drop ip_part.length with
    | '/' :: rest => (scan_d rest).map (fun n => (ip_part, n))
    | _ => none

/-- The call `strtoul(cp, &endp, 0)` on text starting with a digit: `0x`/`0X`
before a hexadecimal digit selects base 16, another leading `0` base 8, anything
else base 10. -/
def strtoul0 (cp : List Char) : Nat × List Char :=
  match cp with
  | '0' :: x :: h :: t =>
    if (x = 'x' ∨ x = 'X') ∧ (digit_val h).isSome then scan_base 16 (h :: t) 0
    else scan_base 8 cp 0
  | '0' :: _ => scan_base 8 cp 0
  | _ => scan_base 10 cp 0

/-- Largest last part allowed after 0, 1, 2, 3 leading parts. -/
def inet_max : List Nat := [0xffffffff, 0xffffff, 0xffff, 0xff]

/-- The test `inet_addr` makes on what follows the last part: the text ends there,
or an ASCII white-space character follows; nothing after that character is read. -/
def trailing_ok : List Char → Bool
  | [] => true
  | c :: _ => decide (c.toNat < 128) && isspace c

/-- The part loop of `inet_addr` (POSIX forms `a`, `a.b`, `a.b.c`, `a.b.c.d`, each
part decimal, octal or hexadecimal): `bytes` are the leading parts stored so
far; the value is in host order, `none` on rejection.  After the last part the
text must end or go on with white space (`trailing_ok`).  A fifth part is
refused, so four rounds of fuel always suffice. -/
def inet_aton_loop : Nat → List Nat → List Char → Option Nat
  | 0, _, _ => none
  | fuel + 1, bytes, cp =>
    match cp with
    | [] => none
    | c :: _ =>
      if ¬ ('0' ≤ c ∧ c ≤ '9') then none
      else
        let r := strtoul0 cp
        if r.1 > 0xffffffff then none
        else
          match r.2 with
          | '.' :: cp2 =>
            if bytes.length > 2 ∨ r.1 > 0xff then none
            else inet_aton_loop fuel (bytes ++ [r.1]) cp2
          | rest =>
            if trailing_ok rest = false then none
            else if r.1 > inet_max.getD bytes.length 0 then none
            else some ((bytes.getD 0 0) * 2 ^ 24 + (bytes.getD 1 0) * 2 ^ 16 +
              (bytes.getD 2 0) * 2 ^ 8 + r.1)

/-- Byte reversal of a 32-bit word. -/
def bswap32 (x : Nat) : Nat :=
  (x % 256) * 2 ^ 24 + (x / 2 ^ 8 % 256) * 2 ^ 16 + (x / 2 ^ 16 % 256) * 2 ^ 8 + x / 2 ^ 24 % 256

/-- The function `htonl` on a little-endian host (the identity on a big-endian one). -/
def htonl (x : Nat) : Nat := bswap32 x

/-- The function `ntohl` on a little-endian host (the identity on a big-endian one). -/
def ntohl (x : Nat) : Nat := bswap32 x

/-- The constant `INADDR_NONE`. -/
def INADDR_NONE : Nat := 0xFFFFFFFF

/-- The function `inet_addr`: the address in network byte order, `INADDR_NONE` on rejection. -/
def inet_addr (cp : List Char) : Nat :=
  match inet_aton_loop 4 [] cp with
  | some v => htonl v
  | none => INADDR_NONE

/-- The function `create_subnet_from_string`. -/
def create_subnet_from_string (subnet_string : String) : Except Failure Subnet :=
  match sscanf_subnet subnet_string.data with
  | none => .error .invalid_format
  | some (ip_part, prefix_length) =>
    let ip := inet_addr ip_part
    if ip = INADDR_NONE then .error .invalid_address
    else if prefix_length ≤ 0 ∨ prefix_length > 32 then .error .invalid_prefix_length
    else .ok { ip := ntohl ip, mask := shl32 ALL_ONES_MASK (sub32 32 (int_to_u32 prefix_length)) }

/-! ## Subnet table (`get_subnet_table`) -/

/-- The anonymous struct `data` inside `SubnetInfo`. -/
structure SubnetData where
  network_id : String
  host_range_start : String
  host_range_end : String
  broadcast_id : String
  num_usable_hosts : Nat
deriving DecidableEq, Repr

/-- The struct `SubnetInfo`: `data` and `char subnet_mask[24]`. -/
structure SubnetInfo where
  data : SubnetData
  subnet_mask : String
deriving DecidableEq, Repr

/-- The loop `while (nearest_subnet < num_subnets) { nearest_subnet <<= 1; nearest_index++; }`
on two `uint16_t` counters; returns `(nearest_subnet, nearest_index)` at exit,
`none` when the fuel runs out first. -/
def nearest_loop : Nat → Nat → Nat → Nat → Option (Nat × Nat)
  | 0, _, _, _ => none
  | fuel + 1, nearest_subnet, nearest_index, num_subnets =>
    if nearest_subnet < num_subnets then
      nearest_loop fuel ((nearest_subnet <<< 1) % U16) ((nearest_index + 1) % U16) num_subnets
    else some (nearest_subnet, nearest_index)

/-- The doubling loop carried out over unbounded naturals, without the 16-bit
truncation: what the loop of `get_subnet_table` computes when nothing overflows. -/
def nearest_loop_exact : Nat → Nat → Nat → Nat → Option (Nat × Nat)
  | 0, _, _, _ => none
  | fuel + 1, nearest_subnet, nearest_index, num_subnets =>
    if nearest_subnet < num_subnets then
      nearest_loop_exact fuel (nearest_subnet * 2) (nearest_index + 1) num_subnets
    else some (nearest_subnet, nearest_index)

/-- An element `SUBNET_TABLE[row][col]`, `none` outside the array. -/
def subnet_table_at (row col : Nat) : Option Nat :=
  match SUBNET_TABLE[row]? with
  | some r => r[col]?
  | none => none

/-- One pass of the body of the `for` loop of `get_subnet_table`, for the current
`networkID_int`; `none` when `subnet_mask_dd` is read outside its bounds. -/
def subnet_row (networkID_int total_num_hosts new_subnet_mask : Nat) : Option SubnetInfo :=
  let start_range := add32 networkID_int 1
  let end_range := sub32 (add32 networkID_int total_num_hosts) 2
  let broadcast := sub32 (add32 networkID_int total_num_hosts) 1
  let subnet_mask_index : Int := (new_subnet_mask : Int) - 24
  if subnet_mask_index < 0 then none
  else
    match subnet_mask_dd[subnet_mask_index.toNat]? with
    | none => none
    | some dd =>
      some
        { data :=
            { network_id := snprintf 16 (fmt_ip networkID_int)
              host_range_start := snprintf 16 (fmt_ip start_range)
              host_range_end := snprintf 16 (fmt_ip end_range)
              broadcast_id := snprintf 16 (fmt_ip broadcast)
              num_usable_hosts := int_to_u32 ((total_num_hosts : Int) - 2) }
          subnet_mask := snprintf 24 ('/' :: fmt_d new_subnet_mask ++ ' ' :: '(' :: dd.data ++ [')']) }

/-- The `for` loop of `get_subnet_table`: `count` passes, each followed by
`networkID_int += total_num_hosts`. -/
def subnet_rows : Nat → Nat → Nat → Nat → Option (List SubnetInfo)
  | 0, _, _, _ => some []
  | count + 1, networkID_int, total_num_hosts, new_subnet_mask =>
    match subnet_row networkID_int total_num_hosts new_subnet_mask with
    | none => none
    | some info =>
      (subnet_rows count (add32 networkID_int total_num_hosts) total_num_hosts new_subnet_mask).map
        (fun rest => info :: rest)

/-- The function `get_subnet_table`; `num_subnets` is a `uint16_t`.  The fuel
bounds the doubling loop. -/
def get_subnet_table (fuel : Nat) (networkID : String) (num_subnets : Nat) :
    Except Failure (List SubnetInfo) :=
  if num_subnets < 1 ∨ num_subnets > 256 then .error .range
  else
    match nearest_loop fuel 1 0 num_subnets with
    | none => .error .out_of_fuel
    | some (_, nearest_index) =>
      match create_subnet_from_string networkID with
      | .error e => .error e
      | .ok subnet =>
        match subnet_table_at 1 nearest_index, subnet_table_at 2 nearest_index with
        | some total_num_hosts, some new_subnet_mask =>
          match subnet_rows num_subnets subnet.ip total_num_hosts new_subnet_mask with
          | some rows => .ok rows
          | none => .error .out_of_bounds
        | _, _ => .error .out_of_bounds

/-! ## Bit-level facts about prefix masks -/

theorem two_pow_le_U32 {k : Nat} (hk : k ≤ 32) : 2 ^ k ≤ 2 ^ 32 :=
  Nat.pow_le_pow_right (by decide) hk

theorem mask_factor {k : Nat} (hk : k ≤ 32) : 2 ^ 32 - 2 ^ k = 2 ^ k * (2 ^ (32 - k) - 1) := by
  have h : 2 ^ 32 = 2 ^ k * 2 ^ (32 - k) := by
    rw [← Nat.pow_add]; congr 1; omega
  rw [Nat.mul_sub, Nat.mul_one, ← h]

theorem mask_testBit {k : Nat} (hk : k ≤ 32) (i : Nat) :
    (2 ^ 32 - 2 ^ k).testBit i = (decide (k ≤ i) && decide (i < 32)) := by
  rw [mask_factor hk, Nat.testBit_mul_pow_two, Nat.testBit_two_pow_sub_one]
  by_cases h : k ≤ i
  · simp [h]; omega
  · simp [h]

theorem testBit_high_false {ip i : Nat} (hip : ip < 2 ^ 32) (hi : 32 ≤ i) :
    ip.testBit i = false :=
  Nat.testBit_lt_two_pow (Nat.lt_of_lt_of_le hip (Nat.pow_le_pow_right (by decide) hi))

theorem land_mask {ip k : Nat} (hip : ip < 2 ^ 32) (hk : k ≤ 32) :
    ip &&& (2 ^ 32 - 2 ^ k) = 2 ^ k * (ip / 2 ^ k) := by
  apply Nat.eq_of_testBit_eq
  intro i
  rw [Nat.testBit_and, mask_testBit hk, Nat.testBit_mul_pow_two, ← Nat.shiftRight_eq_div_pow,
    Nat.testBit_shiftRight]
  by_cases h : k ≤ i
  · have e : k + (i - k) = i := by omega
    by_cases h2 : i < 32
    · simp [h, h2, e]
    · simp [h, h2, e, testBit_high_false hip (by omega : 32 ≤ i)]
  · simp [h]

theorem lor_low (ip k : Nat) :
    ip ||| (2 ^ k - 1) = 2 ^ k * (ip / 2 ^ k) + (2 ^ k - 1) := by
  have hb : 2 ^ k - 1 < 2 ^ k := Nat.sub_lt (Nat.two_pow_pos k) (by decide)
  rw [Nat.mul_add_lt_is_or hb]
  apply Nat.eq_of_testBit_eq
  intro i
  rw [Nat.testBit_or, Nat.testBit_or, Nat.testBit_mul_pow_two, ← Nat.shiftRight_eq_div_pow,
    Nat.testBit_shiftRight, Nat.testBit_two_pow_sub_one]
  by_cases h : k ≤ i
  · have e : k + (i - k) = i := by omega
    simp [h, e]
  · have h2 : i < k := by omega
    simp [h2]

theorem shl32_all_ones {k : Nat} (hk : k ≤ 32) : shl32 ALL_ONES_MASK k = 2 ^ 32 - 2 ^ k := by
  interval_cases k <;> decide

theorem not32_mask {k : Nat} (hk : k ≤ 32) : not32 (2 ^ 32 - 2 ^ k) = 2 ^ k - 1 := by
  have h1 := two_pow_le_U32 hk
  have h2 : 0 < 2 ^ k := Nat.two_pow_pos k
  unfold not32 U32
  rw [Nat.mod_eq_of_lt (by omega)]
  omega


theorem create_subnet_mask {p : Nat} (ip : Nat) (h1 : 1 ≤ p) (h2 : p ≤ 32) :
    (create_subnet ip p).mask = 2 ^ 32 - 2 ^ (32 - p) := by
  unfold create_subnet
  exact shl32_all_ones (by omega)

/-! ## Leading bits of an address -/

theorem land_top (ip c : Nat) : ip &&& (2 ^ 28 * c) = 2 ^ 28 * ((ip / 2 ^ 28) &&& c) := by
  apply Nat.eq_of_testBit_eq
  intro i
  rw [Nat.testBit_and, Nat.testBit_mul_pow_two, Nat.testBit_mul_pow_two, Nat.testBit_and,
    ← Nat.shiftRight_eq_div_pow, Nat.testBit_shiftRight]
  by_cases h : 28 ≤ i
  · have e : 28 + (i - 28) = i := by omega
    simp [h, e]
  · simp [h]

theorem testBit_top (ip j : Nat) : ip.testBit (28 + j) = (ip / 2 ^ 28).testBit j := by
  rw [← Nat.shiftRight_eq_div_pow, Nat.testBit_shiftRight]

theorem classify_nibble : ∀ t : Fin 16,
    ((2 ^ 28 * (t.val &&& 8) = 0) ↔ t.val.testBit 3 = false) ∧
    ((2 ^ 28 * (t.val &&& 12) = 0x80000000) ↔ (t.val.testBit 3 = true ∧ t.val.testBit 2 = false)) ∧
    ((2 ^ 28 * (t.val &&& 14) = 0xC0000000) ↔
      (t.val.testBit 3 = true ∧ t.val.testBit 2 = true ∧ t.val.testBit 1 = false)) ∧
    ((2 ^ 28 * (t.val &&& 15) = 0xE0000000) ↔
      (t.val.testBit 3 = true ∧ t.val.testBit 2 = true ∧ t.val.testBit 1 = true ∧
        t.val.testBit 0 = false)) := by
  decide


theorem classify_ip_bits (addr : IPAddress) (h : addr.ip < 2 ^ 32) :
    (classify_ip addr = 'A' ↔ addr.ip.testBit 31 = false) ∧
    (classify_ip addr = 'B' ↔ (addr.ip.testBit 31 = true ∧ addr.ip.testBit 30 = false)) ∧
    (classify_ip addr = 'C' ↔
      (addr.ip.testBit 31 = true ∧ addr.ip.testBit 30 = true ∧ addr.ip.testBit 29 = false)) ∧
    (classify_ip addr = 'D' ↔
      (addr.ip.testBit 31 = true ∧ addr.ip.testBit 30 = true ∧ addr.ip.testBit 29 = true ∧
        addr.ip.testBit 28 = false)) ∧
    (classify_ip addr = 'E' ↔
      (addr.ip.testBit 31 = true ∧ addr.ip.testBit 30 = true ∧ addr.ip.testBit 29 = true ∧
        addr.ip.testBit 28 = true)) := by
  have ht : addr.ip / 2 ^ 28 < 16 := Nat.div_lt_of_lt_mul (by simpa using h)
  obtain ⟨hA, hB, hC, hD⟩ := classify_nibble ⟨addr.ip / 2 ^ 28, ht⟩
  simp only [] at hA hB hC hD
  have c1 : addr.ip &&& 0x80000000 = 2 ^ 28 * ((addr.ip / 2 ^ 28) &&& 8) := land_top addr.ip 8
  have c2 : addr.ip &&& 0xC0000000 = 2 ^ 28 * ((addr.ip / 2 ^ 28) &&& 12) := land_top addr.ip 12
  have c3 : addr.ip &&& 0xE0000000 = 2 ^ 28 * ((addr.ip / 2 ^ 28) &&& 14) := land_top addr.ip 14
  have c4 : addr.ip &&& 0xF0000000 = 2 ^ 28 * ((addr.ip / 2 ^ 28) &&& 15) := land_top addr.ip 15
  have e3 : addr.ip.testBit 31 = (addr.ip / 2 ^ 28).testBit 3 := testBit_top addr.ip 3
  have e2 : addr.ip.testBit 30 = (addr.ip / 2 ^ 28).testBit 2 := testBit_top addr.ip 2
  have e1 : addr.ip.testBit 29 = (addr.ip / 2 ^ 28).testBit 1 := testBit_top addr.ip 1
  have e0 : addr.ip.testBit 28 = (addr.ip / 2 ^ 28).testBit 0 := testBit_top addr.ip 0
  unfold classify_ip
  rw [c1, c2, c3, c4, e3, e2, e1, e0]
  simp only [hA, hB, hC, hD]
  generalize (addr.ip / 2 ^ 28).testBit 3 = b3
  generalize (addr.ip / 2 ^ 28).testBit 2 = b2
  generalize (addr.ip / 2 ^ 28).testBit 1 = b1
  generalize (addr.ip / 2 ^ 28).testBit 0 = b0
  cases b3 <;> cases b2 <;> cases b1 <;> cases b0 <;> simp


/-! ## The block of a subnet -/

theorem block_top {ip k : Nat} (hip : ip < 2 ^ 32) (hk : k ≤ 32) :
    2 ^ k * (ip / 2 ^ k) + 2 ^ k ≤ 2 ^ 32 := by
  have hsplit : 2 ^ 32 = 2 ^ k * 2 ^ (32 - k) := by
    rw [← Nat.pow_add]; congr 1; omega
  have hq : ip / 2 ^ k < 2 ^ (32 - k) := Nat.div_lt_of_lt_mul (by rw [← hsplit]; exact hip)
  calc 2 ^ k * (ip / 2 ^ k) + 2 ^ k = 2 ^ k * (ip / 2 ^ k + 1) := by rw [Nat.mul_add, Nat.mul_one]
    _ ≤ 2 ^ k * 2 ^ (32 - k) := Nat.mul_le_mul_left _ hq
    _ = 2 ^ 32 := hsplit.symm

theorem block_contains (ip k : Nat) :
    2 ^ k * (ip / 2 ^ k) ≤ ip ∧ ip < 2 ^ k * (ip / 2 ^ k) + 2 ^ k := by
  have h := Nat.div_add_mod ip (2 ^ k)
  have h2 : ip % 2 ^ k < 2 ^ k := Nat.mod_lt _ (Nat.two_pow_pos k)
  omega

/-- The network and broadcast address of the subnet `create_subnet ip p`. -/
theorem network_broadcast {ip p : Nat} (hip : ip < 2 ^ 32) (h1 : 1 ≤ p) (h2 : p ≤ 32) :
    ip &&& (create_subnet ip p).mask = 2 ^ (32 - p) * (ip / 2 ^ (32 - p)) ∧
    ip ||| not32 (create_subnet ip p).mask =
      2 ^ (32 - p) * (ip / 2 ^ (32 - p)) + (2 ^ (32 - p) - 1) := by
  rw [create_subnet_mask ip h1 h2, not32_mask (by omega), land_mask hip (by omega), lor_low]
  exact ⟨rfl, rfl⟩

theorem four_le_two_pow {k : Nat} (hk : 2 ≤ k) : 4 ≤ 2 ^ k :=
  calc 4 = 2 ^ 2 := rfl
    _ ≤ 2 ^ k := Nat.pow_le_pow_right (by decide) hk

/-- C2: for every 32-bit `ip` and prefix length in [1,30], `assignable_range` of
`create_subnet ip p` starts one past the network address `ip & mask` and ends one
before the broadcast address `ip | ~mask`, without 32-bit wraparound, so that
network < start <= end < broadcast and exactly the network and broadcast
addresses of the block are left out; for 192.168.1.0/24 the range is
192.168.1.1 to 192.168.1.254. -/
theorem assignable_range_spec (ip p : Nat) (hip : ip < 2 ^ 32) (h1 : 1 ≤ p) (h30 : p ≤ 30) :
    ((assignable_range (create_subnet ip p)).1.ip = (ip &&& (create_subnet ip p).mask) + 1 ∧
     (assignable_range (create_subnet ip p)).2.ip + 1 = ip ||| not32 (create_subnet ip p).mask ∧
     (ip &&& (create_subnet ip p).mask) < (assignable_range (create_subnet ip p)).1.ip ∧
     (assignable_range (create_subnet ip p)).1.ip ≤ (assignable_range (create_subnet ip p)).2.ip ∧
     (assignable_range (create_subnet ip p)).2.ip < (ip ||| not32 (create_subnet ip p).mask) ∧
     (ip ||| not32 (create_subnet ip p).mask) < 2 ^ 32 ∧
     (∀ a, (ip &&& (create_subnet ip p).mask) ≤ a → a ≤ (ip ||| not32 (create_subnet ip p).mask) →
        (((assignable_range (create_subnet ip p)).1.ip ≤ a ∧
            a ≤ (assignable_range (create_subnet ip p)).2.ip) ↔
          (a ≠ (ip &&& (create_subnet ip p).mask) ∧
            a ≠ (ip ||| not32 (create_subnet ip p).mask))))) ∧
    ((to_ipv4 (assignable_range (create_subnet 0xC0A80100 24)).1.ip).addr = "192.168.1.1" ∧
     (to_ipv4 (assignable_range (create_subnet 0xC0A80100 24)).2.ip).addr = "192.168.1.254") := by
  refine ⟨?_, by decide⟩
  obtain ⟨hn, hb⟩ := network_broadcast hip h1 (by omega : p ≤ 32)
  have htop := block_top hip (by omega : 32 - p ≤ 32)
  have h4 := four_le_two_pow (by omega : 2 ≤ 32 - p)
  have hs : (assignable_range (create_subnet ip p)).1.ip
      = add32 (ip &&& (create_subnet ip p).mask) 1 := rfl
  have he : (assignable_range (create_subnet ip p)).2.ip
      = sub32 (ip ||| not32 (create_subnet ip p).mask) 1 := rfl
  rw [hs, he, hn, hb]
  generalize 2 ^ (32 - p) * (ip / 2 ^ (32 - p)) = N at *
  generalize 2 ^ (32 - p) = K at *
  have e1 : add32 N 1 = N + 1 := by
    unfold add32 U32; omega
  have e2 : sub32 (N + (K - 1)) 1 = N + (K - 1) - 1 := by
    unfold sub32 U32; omega
  rw [e1, e2]
  refine ⟨rfl, by omega, by omega, by omega, by omega, by omega, ?_⟩
  intro a ha1 ha2
  omega

theorem compute_assignable_addresses_eq {ip p : Nat} (h1 : 1 ≤ p) (h30 : p ≤ 30) :
    compute_assignable_addresses (create_subnet ip p) = 2 ^ (32 - p) - 3 := by
  unfold compute_assignable_addresses
  rw [create_subnet_mask ip h1 (by omega), not32_mask (by omega)]
  have h4 := four_le_two_pow (by omega : 2 ≤ 32 - p)
  have hle := two_pow_le_U32 (by omega : 32 - p ≤ 32)
  generalize 2 ^ (32 - p) = K at *
  unfold sub32 U32
  omega

theorem ips_loop_length (n start_ip : Nat) : (ips_loop n start_ip).length = n := by
  induction n generalizing start_ip with
  | zero => rfl
  | succ n ih => simp [ips_loop, ih]

/-- C1 (the code at 192.168.1.0/24): `compute_assignable_addresses` returns 253,
one less than the `2^(32-24) - 2 = 254` assignable addresses of the block. -/
theorem compute_assignable_addresses_slash24 :
    compute_assignable_addresses (create_subnet 0xC0A80100 24) = 253 ∧
    2 ^ (32 - 24) - 2 = 254 := by
  decide

/-- C2 at 10.1.2.3/30. -/
theorem assignable_range_spec_witness :
    (10 * 2 ^ 24 + 2 ^ 16 + 2 * 2 ^ 8 + 3 < 2 ^ 32 ∧ 1 ≤ 30 ∧ 30 ≤ 30) ∧
    (assignable_range (create_subnet (10 * 2 ^ 24 + 2 ^ 16 + 2 * 2 ^ 8 + 3) 30)).1.ip =
      ((10 * 2 ^ 24 + 2 ^ 16 + 2 * 2 ^ 8 + 3) &&&
        (create_subnet (10 * 2 ^ 24 + 2 ^ 16 + 2 * 2 ^ 8 + 3) 30).mask) + 1 :=
  ⟨by decide,
   (assignable_range_spec (10 * 2 ^ 24 + 2 ^ 16 + 2 * 2 ^ 8 + 3) 30 (by decide) (by decide)
      (by decide)).1.1⟩

/-- C3: for every prefix length `p` in [1,32], `create_subnet ip p` keeps `ip` and
its mask is a 32-bit word whose bits 31 down to `32 - p` are one (the `p` leading
bits) and whose bits below `32 - p` are zero; for `p = 32` it is all ones. -/
theorem create_subnet_mask_bits (ip p : Nat) (h1 : 1 ≤ p) (h32 : p ≤ 32) :
    (create_subnet ip p).ip = ip ∧
    (create_subnet ip p).mask < 2 ^ 32 ∧
    (∀ i, i < 32 → ((create_subnet ip p).mask.testBit i = true ↔ 32 - p ≤ i)) ∧
    (p = 32 → (create_subnet ip p).mask = 0xFFFFFFFF) := by
  have hm := create_subnet_mask ip h1 h32
  have hpos : 0 < 2 ^ (32 - p) := Nat.two_pow_pos _
  refine ⟨rfl, by rw [hm]; omega, ?_, ?_⟩
  · intro i hi
    rw [hm, mask_testBit (by omega)]
    simp [hi]
  · intro hp
    subst hp
    exact shl32_all_ones (Nat.zero_le 32)

/-- C3 at 10.0.0.1/8. -/
theorem create_subnet_mask_bits_witness :
    (1 ≤ 8 ∧ 8 ≤ 32) ∧ (create_subnet 0x0A000001 8).ip = 0x0A000001 ∧
    (create_subnet 0x0A000001 8).mask < 2 ^ 32 :=
  ⟨by decide, (create_subnet_mask_bits 0x0A000001 8 (by decide) (by decide)).1,
    (create_subnet_mask_bits 0x0A000001 8 (by decide) (by decide)).2.1⟩

/-- C4: `classify_ip` splits the 32-bit addresses into the five classes by their
leading bits: 'A' iff bit 31 is 0, 'B' iff bits 31-30 are 10, 'C' iff bits 31-29
are 110, 'D' iff bits 31-28 are 1110, 'E' iff bits 31-28 are 1111; every address
gets exactly one of the five letters.  10.0.0.1 is A, 172.16.0.1 is B,
192.168.1.1 is C, 224.0.0.1 is D, 240.0.0.1 is E. -/
theorem classify_ip_partition (addr : IPAddress) (h : addr.ip < 2 ^ 32) :
    ((classify_ip addr = 'A' ↔ addr.ip.testBit 31 = false) ∧
     (classify_ip addr = 'B' ↔ (addr.ip.testBit 31 = true ∧ addr.ip.testBit 30 = false)) ∧
     (classify_ip addr = 'C' ↔
       (addr.ip.testBit 31 = true ∧ addr.ip.testBit 30 = true ∧ addr.ip.testBit 29 = false)) ∧
     (classify_ip addr = 'D' ↔
       (addr.ip.testBit 31 = true ∧ addr.ip.testBit 30 = true ∧ addr.ip.testBit 29 = true ∧
         addr.ip.testBit 28 = false)) ∧
     (classify_ip addr = 'E' ↔
       (addr.ip.testBit 31 = true ∧ addr.ip.testBit 30 = true ∧ addr.ip.testBit 29 = true ∧
         addr.ip.testBit 28 = true))) ∧
    (classify_ip addr = 'A' ∨ classify_ip addr = 'B' ∨ classify_ip addr = 'C' ∨
      classify_ip addr = 'D' ∨ classify_ip addr = 'E') ∧
    ((to_ipv4 0x0A000001).addr = "10.0.0.1" ∧ classify_ip ⟨0x0A000001, Char.ofNat 0⟩ = 'A') ∧
    ((to_ipv4 0xAC100001).addr = "172.16.0.1" ∧ classify_ip ⟨0xAC100001, Char.ofNat 0⟩ = 'B') ∧
    ((to_ipv4 0xC0A80101).addr = "192.168.1.1" ∧ classify_ip ⟨0xC0A80101, Char.ofNat 0⟩ = 'C') ∧
    ((to_ipv4 0xE0000001).addr = "224.0.0.1" ∧ classify_ip ⟨0xE0000001, Char.ofNat 0⟩ = 'D') ∧
    ((to_ipv4 0xF0000001).addr = "240.0.0.1" ∧ classify_ip ⟨0xF0000001, Char.ofNat 0⟩ = 'E') := by
  refine ⟨classify_ip_bits addr h, ?_, by decide, by decide, by decide, by decide, by decide⟩
  unfold classify_ip
  split_ifs <;> simp

/-- C4 at 172.16.0.1. -/
theorem classify_ip_partition_witness :
    (0xAC100001 < 2 ^ 32) ∧
    (classify_ip ⟨0xAC100001, 'A'⟩ = 'B' ↔
      (Nat.testBit 0xAC100001 31 = true ∧ Nat.testBit 0xAC100001 30 = false)) :=
  ⟨by decide, (classify_ip_partition ⟨0xAC100001, 'A'⟩ (by decide)).1.2.1⟩

/-- C5 (the code at 192.168.1.0/24): `get_ips_in_subnet` returns 254 addresses and
stores 254 in `*num_ips`, while `compute_assignable_addresses` returns 253. -/
theorem get_ips_count_slash24 :
    (get_ips_in_subnet (create_subnet 0xC0A80100 24)).2 = 254 ∧
    (get_ips_in_subnet (create_subnet 0xC0A80100 24)).1.length = 254 ∧
    compute_assignable_addresses (create_subnet 0xC0A80100 24) = 253 := by
  refine ⟨by decide, ?_, by decide⟩
  unfold get_ips_in_subnet
  simp only [ips_loop_length]
  decide

/-- C6 (the code at 192.168.1.1/30, a host address of the block 192.168.1.0/30):
`get_ips_in_subnet` returns the single address 192.168.1.2, although the
addresses strictly between network and broadcast, and the range given by
`assignable_range`, are 192.168.1.1 and 192.168.1.2. -/
theorem get_ips_host_address_slash30 :
    create_subnet_from_string "192.168.1.1/30" = .ok (create_subnet 0xC0A80101 30) ∧
    get_ips_in_subnet (create_subnet 0xC0A80101 30) = ([⟨"192.168.1.2"⟩], 1) ∧
    (0xC0A80101 &&& (create_subnet 0xC0A80101 30).mask) = 0xC0A80100 ∧
    (0xC0A80101 ||| not32 (create_subnet 0xC0A80101 30).mask) = 0xC0A80103 ∧
    to_ipv4 (assignable_range (create_subnet 0xC0A80101 30)).1.ip = ⟨"192.168.1.1"⟩ ∧
    to_ipv4 (assignable_range (create_subnet 0xC0A80101 30)).2.ip = ⟨"192.168.1.2"⟩ := by
  decide

set_option maxRecDepth 1000000 in
theorem nearest_loop_nine : ∀ n, n < 257 → 1 ≤ n →
    ∃ k, k < 9 ∧ nearest_loop 9 1 0 n = some (2 ^ k, k) ∧
      nearest_loop_exact 9 1 0 n = some (2 ^ k, k) ∧ n ≤ 2 ^ k ∧ (k = 0 ∨ 2 ^ (k - 1) < n) := by
  decide

theorem nearest_loop_mono (fuel a b n : Nat) (r : Nat × Nat)
    (h : nearest_loop fuel a b n = some r) : nearest_loop (fuel + 1) a b n = some r := by
  induction fuel generalizing a b with
  | zero => simp [nearest_loop] at h
  | succ f ih =>
    rw [nearest_loop] at h
    rw [nearest_loop]
    split_ifs at h ⊢ with hc
    · exact ih _ _ h
    · exact h

theorem nearest_loop_mono_le {f g a b n : Nat} {r : Nat × Nat} (hfg : f ≤ g)
    (h : nearest_loop f a b n = some r) : nearest_loop g a b n = some r := by
  induction hfg with
  | refl => exact h
  | step _ ih => exact nearest_loop_mono _ _ _ _ _ ih

theorem nearest_loop_exact_mono (fuel a b n : Nat) (r : Nat × Nat)
    (h : nearest_loop_exact fuel a b n = some r) :
    nearest_loop_exact (fuel + 1) a b n = some r := by
  induction fuel generalizing a b with
  | zero => simp [nearest_loop_exact] at h
  | succ f ih =>
    rw [nearest_loop_exact] at h
    rw [nearest_loop_exact]
    split_ifs at h ⊢ with hc
    · exact ih _ _ h
    · exact h

theorem nearest_loop_exact_mono_le {f g a b n : Nat} {r : Nat × Nat} (hfg : f ≤ g)
    (h : nearest_loop_exact f a b n = some r) : nearest_loop_exact g a b n = some r := by
  induction hfg with
  | refl => exact h
  | step _ ih => exact nearest_loop_exact_mono _ _ _ _ _ ih

theorem table_rows_at : ∀ k, k < 9 →
    subnet_table_at 0 k = some (2 ^ k) ∧ subnet_table_at 1 k = some (256 / 2 ^ k) ∧
    subnet_table_at 2 k = some (24 + k) ∧
    (subnet_mask_dd[(((24 + k : Nat) : Int) - 24).toNat]?).isSome = true := by
  decide


/-! ## Rows of the subnet table -/

theorem add32_one_eq (a : Nat) : add32 a 1 = int_to_u32 ((a : Int) + 1) := by
  unfold add32 int_to_u32 U32
  omega

theorem sub32_add32_eq (a b c : Nat) :
    sub32 (add32 a b) c = int_to_u32 ((a : Int) + b - c) := by
  unfold sub32 add32 int_to_u32 U32
  omega

theorem subnet_row_some {H m : Nat} {dd : String} (hm : 24 ≤ m)
    (hdd : subnet_mask_dd[m - 24]? = some dd) (N : Nat) :
    subnet_row N H m =
      some
        { data :=
            { network_id := (to_ipv4 N).addr
              host_range_start := (to_ipv4 (int_to_u32 ((N : Int) + 1))).addr
              host_range_end := (to_ipv4 (int_to_u32 ((N : Int) + H - 2))).addr
              broadcast_id := (to_ipv4 (int_to_u32 ((N : Int) + H - 1))).addr
              num_usable_hosts := int_to_u32 ((H : Int) - 2) }
          subnet_mask := snprintf 24 ('/' :: fmt_d m ++ ' ' :: '(' :: dd.data ++ [')']) } := by
  have hneg : ¬ ((m : Int) - 24 < 0) := by omega
  have hidx : ((m : Int) - 24).toNat = m - 24 := by omega
  unfold subnet_row
  simp only [hneg, if_false, hidx, hdd]
  rw [add32_one_eq, sub32_add32_eq, sub32_add32_eq]
  rfl

theorem subnet_rows_spec {H m : Nat} {dd : String} (hm : 24 ≤ m)
    (hdd : subnet_mask_dd[m - 24]? = some dd) (count N : Nat) (hN : N < 2 ^ 32) :
    ∃ rows, subnet_rows count N H m = some rows ∧ rows.length = count ∧
      ∀ i, i < count → rows[i]? = subnet_row ((N + i * H) % 2 ^ 32) H m := by
  induction count generalizing N with
  | zero => exact ⟨[], rfl, rfl, fun i hi => absurd hi (Nat.not_lt_zero i)⟩
  | succ c ih =>
    have hlt : add32 N H < 2 ^ 32 := Nat.mod_lt _ (by decide)
    obtain ⟨rest, hrest, hlen, hget⟩ := ih (add32 N H) hlt
    obtain ⟨info, hinfo⟩ : ∃ info, subnet_row N H m = some info :=
      ⟨_, subnet_row_some hm hdd N⟩
    refine ⟨info :: rest, ?_, ?_, ?_⟩
    · rw [subnet_rows, hinfo, hrest]
      rfl
    · simp [hlen]
    · intro i hi
      cases i with
      | zero =>
        rw [List.getElem?_cons_zero, Nat.zero_mul, Nat.add_zero, Nat.mod_eq_of_lt hN, hinfo]
      | succ j =>
        rw [List.getElem?_cons_succ, hget j (by omega)]
        congr 1
        have e : (j + 1) * H = j * H + H := by ring
        rw [e]
        unfold add32 U32
        omega

theorem bswap32_lt (x : Nat) : bswap32 x < 2 ^ 32 := by
  unfold bswap32
  omega

theorem create_subnet_from_string_ip_lt {text : String} {s : Subnet}
    (h : create_subnet_from_string text = .ok s) : s.ip < 2 ^ 32 := by
  unfold create_subnet_from_string at h
  split at h
  · cases h
  · dsimp only at h
    split_ifs at h
    injection h with h
    subst h
    exact bswap32_lt _

/-- What `get_subnet_table` returns on a parent text that parses, for a count in
[1,256] and enough fuel for the doubling loop: `k` is the number of doublings. -/
theorem get_subnet_table_ok {fuel n : Nat} {text : String} {s : Subnet}
    (hp : create_subnet_from_string text = .ok s) (h1 : 1 ≤ n) (h256 : n ≤ 256)
    (hf : 9 ≤ fuel) :
    ∃ k rows dd, k < 9 ∧ nearest_loop fuel 1 0 n = some (2 ^ k, k) ∧ n ≤ 2 ^ k ∧
      (k = 0 ∨ 2 ^ (k - 1) < n) ∧ subnet_mask_dd[k]? = some dd ∧
      get_subnet_table fuel text n = .ok rows ∧ rows.length = n ∧
      ∀ i, i < n → rows[i]? = subnet_row ((s.ip + i * (256 / 2 ^ k)) % 2 ^ 32) (256 / 2 ^ k) (24 + k) := by
  obtain ⟨k, hk, hloop9, -, hle, hmin⟩ := nearest_loop_nine n (by omega) h1
  have hloop := nearest_loop_mono_le hf hloop9
  obtain ⟨-, ht1, ht2, hsome⟩ := table_rows_at k hk
  have hidx : (((24 + k : Nat) : Int) - 24).toNat = k := by omega
  rw [hidx] at hsome
  obtain ⟨dd, hdd⟩ := Option.isSome_iff_exists.mp hsome
  have hdd2 : subnet_mask_dd[(24 + k) - 24]? = some dd := by
    rw [Nat.add_sub_cancel_left]; exact hdd
  obtain ⟨rows, hrows, hlen, hget⟩ :=
    subnet_rows_spec (H := 256 / 2 ^ k) (Nat.le_add_right 24 k) hdd2 n s.ip
      (create_subnet_from_string_ip_lt hp)
  refine ⟨k, rows, dd, hk, hloop, hle, hmin, hdd, ?_, hlen, hget⟩
  unfold get_subnet_table
  have hrange : ¬ (n < 1 ∨ n > 256) := by omega
  simp only [hrange, if_false, hloop, hp, ht1, ht2, hrows]

theorem get_subnet_table_fuel {fuel n : Nat} (text : String) (h1 : 1 ≤ n) (h256 : n ≤ 256)
    (hf : 9 ≤ fuel) : get_subnet_table fuel text n = get_subnet_table 9 text n := by
  obtain ⟨k, -, hloop9, -, -, -⟩ := nearest_loop_nine n (by omega) h1
  have hloop := nearest_loop_mono_le hf hloop9
  unfold get_subnet_table
  rw [hloop, hloop9]

theorem two_pow_minimal {n k : Nat} (hmin : k = 0 ∨ 2 ^ (k - 1) < n) (j : Nat)
    (hj : n ≤ 2 ^ j) : k ≤ j := by
  rcases hmin with h0 | hlt
  · omega
  · by_contra hc
    have h2 : 2 ^ j ≤ 2 ^ (k - 1) := Nat.pow_le_pow_right (by decide) (by omega)
    omega

/-- C8: for every requested count `n` in [1,256] the doubling loop of
`get_subnet_table` ends (any fuel of at least 9 rounds is enough) with
`nearest_subnet = 2^k`, the smallest power of two that is at least `n`, and
`nearest_index = k`, the number of doublings (0 for `n = 1`); the 16-bit counters
never overflow (the loop over unbounded integers gives the same pair); `k` is at
most 8, `SUBNET_TABLE[0][k]` is `2^k`, and the reads of `SUBNET_TABLE[1][k]`,
`SUBNET_TABLE[2][k]` and `subnet_mask_dd[SUBNET_TABLE[2][k] - 24]` are in bounds. -/
theorem nearest_loop_spec (n fuel : Nat) (h1 : 1 ≤ n) (h256 : n ≤ 256) (hf : 9 ≤ fuel) :
    ∃ k, k ≤ 8 ∧ nearest_loop fuel 1 0 n = some (2 ^ k, k) ∧
      nearest_loop_exact fuel 1 0 n = some (2 ^ k, k) ∧
      n ≤ 2 ^ k ∧ (∀ j, n ≤ 2 ^ j → k ≤ j) ∧ (n = 1 → k = 0) ∧
      subnet_table_at 0 k = some (2 ^ k) ∧
      subnet_table_at 1 k = some (256 / 2 ^ k) ∧
      subnet_table_at 2 k = some (24 + k) ∧
      (subnet_mask_dd[(((24 + k : Nat) : Int) - 24).toNat]?).isSome = true := by
  obtain ⟨k, hk, hloop9, hexact9, hle, hmin⟩ := nearest_loop_nine n (by omega) h1
  obtain ⟨ht0, ht1, ht2, hdd⟩ := table_rows_at k hk
  refine ⟨k, by omega, nearest_loop_mono_le hf hloop9, nearest_loop_exact_mono_le hf hexact9,
    hle, two_pow_minimal hmin, ?_, ht0, ht1, ht2, hdd⟩
  intro hn
  exact Nat.le_zero.mp (two_pow_minimal hmin 0 (by omega))

/-- C8 at `n = 10` with fuel 9. -/
theorem nearest_loop_spec_witness :
    (1 ≤ 10 ∧ 10 ≤ 256 ∧ 9 ≤ 9) ∧ ∃ k, k ≤ 8 ∧ nearest_loop 9 1 0 10 = some (2 ^ k, k) := by
  obtain ⟨k, hk, hloop, -⟩ := nearest_loop_spec 10 9 (by decide) (by decide) (by decide)
  exact ⟨by decide, k, hk, hloop⟩

/-- C9: on a parent text that parses, `get_subnet_table` returns no table exactly
when the requested count is outside [1,256], and the failure is then the range
failure; it fails for 0 and 257 and returns 1 and 256 records for 1 and 256. -/
theorem get_subnet_table_fails_iff (fuel n : Nat) (text : String) (s : Subnet)
    (hp : create_subnet_from_string text = .ok s) (hf : 9 ≤ fuel) :
    ((∀ rows, get_subnet_table fuel text n ≠ .ok rows) ↔ (n < 1 ∨ 256 < n)) ∧
    ((n < 1 ∨ 256 < n) → get_subnet_table fuel text n = .error .range) ∧
    get_subnet_table fuel text 0 = .error .range ∧
    get_subnet_table fuel text 257 = .error .range ∧
    (∃ rows, get_subnet_table fuel text 1 = .ok rows ∧ rows.length = 1) ∧
    (∃ rows, get_subnet_table fuel text 256 = .ok rows ∧ rows.length = 256) := by
  have hbad : ∀ m, (m < 1 ∨ 256 < m) → get_subnet_table fuel text m = .error .range := by
    intro m hm
    unfold get_subnet_table
    rw [if_pos hm]
  have hgood : ∀ m, 1 ≤ m → m ≤ 256 →
      ∃ rows, get_subnet_table fuel text m = .ok rows ∧ rows.length = m := by
    intro m h1 h256
    obtain ⟨k, rows, dd, -, -, -, -, -, hres, hlen, -⟩ := get_subnet_table_ok hp h1 h256 hf
    exact ⟨rows, hres, hlen⟩
  refine ⟨⟨?_, ?_⟩, hbad n, hbad 0 (by omega), hbad 257 (by omega),
    hgood 1 (by omega) (by omega), hgood 256 (by omega) (by omega)⟩
  · intro hno
    by_contra hc
    obtain ⟨rows, hres, -⟩ := hgood n (by omega) (by omega)
    exact hno rows hres
  · intro hout rows hres
    rw [hbad n hout] at hres
    cases hres

/-- C9 at the parent "192.168.4.0/23" with fuel 9 and count 300. -/
theorem get_subnet_table_fails_iff_witness :
    (create_subnet_from_string "192.168.4.0/23" = .ok ⟨0xC0A80400, 0xFFFFFE00⟩ ∧ 9 ≤ 9) ∧
    ((∀ rows, get_subnet_table 9 "192.168.4.0/23" 300 ≠ .ok rows) ↔ (300 < 1 ∨ 256 < 300)) :=
  ⟨⟨by decide, by decide⟩,
   (get_subnet_table_fails_iff 9 300 "192.168.4.0/23" ⟨0xC0A80400, 0xFFFFFE00⟩ (by decide)
      (by decide)).1⟩


theorem int_to_u32_of_lt {z : Int} {a : Nat} (hz : z = (a : Int)) (ha : a < 2 ^ 32) :
    int_to_u32 z = a := by
  unfold int_to_u32
  omega

/-! ## Reading back printed decimal numbers -/

theorem digitChar_facts : ∀ d, d < 10 →
    digit_val (Nat.digitChar d) = some d ∧ isspace (Nat.digitChar d) = false ∧
    Nat.digitChar d ≠ '-' ∧ Nat.digitChar d ≠ '+' ∧
    ('0' ≤ Nat.digitChar d ∧ Nat.digitChar d ≤ '9') := by
  decide

theorem scan_base_digitChar {d : Nat} (hd : d < 10) (ds : List Char) (acc : Nat) :
    scan_base 10 (Nat.digitChar d :: ds) acc = scan_base 10 ds (acc * 10 + d) := by
  rw [scan_base, (digitChar_facts d hd).1]
  simp only [hd, if_true]

theorem scan_toDigitsCore (fuel : Nat) : ∀ (n : Nat) (ds : List Char), n < fuel →
    ∃ e, ∀ acc, scan_base 10 (Nat.toDigitsCore 10 fuel n ds) acc =
      scan_base 10 ds (acc * 10 ^ e + n) := by
  induction fuel with
  | zero => intro n ds h; omega
  | succ f ih =>
    intro n ds hn
    have hd : n % 10 < 10 := Nat.mod_lt _ (by decide)
    rw [Nat.toDigitsCore]
    by_cases h0 : n / 10 = 0
    · refine ⟨1, fun acc => ?_⟩
      simp only [h0, if_true]
      rw [scan_base_digitChar hd]
      congr 1
      omega
    · obtain ⟨e, he⟩ := ih (n / 10) (Nat.digitChar (n % 10) :: ds) (by omega)
      refine ⟨e + 1, fun acc => ?_⟩
      simp only [h0, if_false]
      rw [he acc, scan_base_digitChar hd, Nat.pow_succ]
      congr 1
      have := Nat.div_add_mod n 10
      generalize 10 ^ e = t at *
      have e2 : acc * (t * 10) = acc * t * 10 := by ring
      omega

theorem scan_toDigits (n : Nat) : scan_base 10 (Nat.toDigits 10 n) 0 = (n, []) := by
  obtain ⟨e, he⟩ := scan_toDigitsCore (n + 1) n [] (Nat.lt_succ_self n)
  unfold Nat.toDigits
  rw [he 0]
  simp [scan_base]

theorem toDigitsCore_head (fuel : Nat) : ∀ (n : Nat) (ds : List Char), n < fuel →
    ∃ d rest, d < 10 ∧ Nat.toDigitsCore 10 fuel n ds = Nat.digitChar d :: rest := by
  induction fuel with
  | zero => intro n ds h; omega
  | succ f ih =>
    intro n ds hn
    rw [Nat.toDigitsCore]
    by_cases h0 : n / 10 = 0
    · exact ⟨n % 10, ds, Nat.mod_lt _ (by decide), by simp only [h0, if_true]⟩
    · obtain ⟨d, rest, hd, hrest⟩ := ih (n / 10) (Nat.digitChar (n % 10) :: ds) (by omega)
      exact ⟨d, rest, hd, by simp only [h0, if_false]; exact hrest⟩

theorem toDigits_head (n : Nat) :
    ∃ d rest, d < 10 ∧ Nat.toDigits 10 n = Nat.digitChar d :: rest :=
  toDigitsCore_head (n + 1) n [] (Nat.lt_succ_self n)

theorem scan_d_digits (n : Nat) : scan_d (Nat.toDigits 10 n) = some (n : Int) := by
  obtain ⟨d, rest, hd, hrest⟩ := toDigits_head n
  obtain ⟨-, hsp, hminus, hplus, hdig⟩ := digitChar_facts d hd
  have hscan := scan_toDigits n
  rw [hrest] at hscan ⊢
  unfold scan_d
  have hdrop : List.dropWhile isspace (Nat.digitChar d :: rest) = Nat.digitChar d :: rest := by
    rw [List.dropWhile_cons, hsp]; rfl
  rw [hdrop]
  split
  · next t heq => exact absurd (List.cons.inj heq).1 hminus
  · next t heq => exact absurd (List.cons.inj heq).1 hplus
  · simp only [hdig, and_self, if_true, hscan, Option.map_some']

theorem scan_d_fmt_d (N : Int) : scan_d (fmt_d N) = some N := by
  unfold fmt_d
  by_cases hneg : N < 0
  · obtain ⟨d, rest, hd, hrest⟩ := toDigits_head N.natAbs
    obtain ⟨-, -, -, -, hdig⟩ := digitChar_facts d hd
    have hscan := scan_toDigits N.natAbs
    rw [if_pos hneg]
    rw [hrest] at hscan ⊢
    unfold scan_d
    have hdrop : List.dropWhile isspace ('-' :: Nat.digitChar d :: rest)
        = '-' :: Nat.digitChar d :: rest := by
      rw [List.dropWhile_cons]; rfl
    rw [hdrop]
    simp only [hdig, and_self, if_true, hscan, Option.map_some']
    congr 1
    omega
  · rw [if_neg hneg, scan_d_digits]
    congr 1
    omega


theorem takeWhile_not_slash (a rest : List Char) (hslash : '/' ∉ a) :
    (a ++ '/' :: rest).takeWhile (fun c => c ≠ '/') = a := by
  induction a with
  | nil => simp
  | cons c cs ih =>
    have hc : c ≠ '/' := fun h => hslash (h ▸ List.mem_cons_self _ _)
    have hcs : '/' ∉ cs := fun h => hslash (List.mem_cons_of_mem _ h)
    have h := ih hcs
    simpa [List.takeWhile_cons, hc] using h

theorem sscanf_subnet_text (a : List Char) (N : Int) (hne : a ≠ []) (hlen : a.length ≤ 15)
    (hslash : '/' ∉ a) : sscanf_subnet (a ++ '/' :: fmt_d N) = some (a, N) := by
  unfold sscanf_subnet
  simp only [takeWhile_not_slash a _ hslash, List.take_of_length_le hlen, hne, if_false,
    List.drop_left, scan_d_fmt_d, Option.map_some']

theorem shift_amount {N : Int} (h1 : 1 ≤ N) (h32 : N ≤ 32) :
    sub32 32 (int_to_u32 N) = 32 - N.toNat := by
  unfold sub32 int_to_u32 U32
  omega

/-- C10: for a text `a/N` whose address part `a` is taken whole by the `%15[^/]`
scan (non-empty, at most 15 characters, no `/`) and accepted by `inet_addr`, and
whose `N` is a decimal integer that fits an `int`, `create_subnet_from_string`
fails exactly when `N <= 0` or `N > 32`, and then with the prefix-length failure;
otherwise it returns `create_subnet` of the host-order address and `N`, whose mask
is `0xFFFFFFFF << (32 - N)`.  "192.168.1.0/0" and "192.168.1.0/33" fail. -/
theorem create_subnet_from_string_prefix_length (a : List Char) (N : Int) (hne : a ≠ [])
    (hlen : a.length ≤ 15) (hslash : '/' ∉ a) (haddr : inet_addr a ≠ INADDR_NONE)
    (_hint : -2 ^ 31 ≤ N ∧ N < 2 ^ 31) :
    ((create_subnet_from_string (String.mk (a ++ '/' :: fmt_d N)) =
        .error .invalid_prefix_length) ↔ (N ≤ 0 ∨ N > 32)) ∧
    ((∀ s, create_subnet_from_string (String.mk (a ++ '/' :: fmt_d N)) ≠ .ok s) ↔
      (N ≤ 0 ∨ N > 32)) ∧
    ((1 ≤ N ∧ N ≤ 32) →
      create_subnet_from_string (String.mk (a ++ '/' :: fmt_d N)) =
        .ok (create_subnet (ntohl (inet_addr a)) N.toNat) ∧
      (create_subnet (ntohl (inet_addr a)) N.toNat).mask =
        (0xFFFFFFFF <<< (32 - N.toNat)) % 2 ^ 32) ∧
    create_subnet_from_string "192.168.1.0/0" = .error .invalid_prefix_length ∧
    create_subnet_from_string "192.168.1.0/33" = .error .invalid_prefix_length ∧
    create_subnet_from_string "192.168.1.0/24" = .ok (create_subnet 0xC0A80100 24) := by
  have hscan := sscanf_subnet_text a N hne hlen hslash
  have hbad : (N ≤ 0 ∨ N > 32) →
      create_subnet_from_string (String.mk (a ++ '/' :: fmt_d N)) =
        .error .invalid_prefix_length := by
    intro h
    unfold create_subnet_from_string
    simp only [hscan, haddr, h, if_false, if_true]
  have hgood : (1 ≤ N ∧ N ≤ 32) →
      create_subnet_from_string (String.mk (a ++ '/' :: fmt_d N)) =
        .ok (create_subnet (ntohl (inet_addr a)) N.toNat) := by
    intro h
    have hn : ¬ (N ≤ 0 ∨ N > 32) := by omega
    unfold create_subnet_from_string create_subnet
    simp only [hscan, haddr, hn, if_false, shift_amount h.1 h.2]
  refine ⟨⟨?_, hbad⟩, ⟨?_, ?_⟩, fun h => ⟨hgood h, rfl⟩, by decide, by decide, by decide⟩
  · intro herr
    by_contra hc
    rw [hgood (by omega)] at herr
    cases herr
  · intro hno
    by_contra hc
    exact hno _ (hgood (by omega))
  · intro h s hs
    rw [hbad h] at hs
    cases hs

/-- C10 at the text "10.1.2.3/8". -/
theorem create_subnet_from_string_prefix_length_witness :
    ("10.1.2.3".data ≠ [] ∧ "10.1.2.3".data.length ≤ 15 ∧ '/' ∉ "10.1.2.3".data ∧
      inet_addr "10.1.2.3".data ≠ INADDR_NONE ∧ (-2 ^ 31 ≤ (8 : Int) ∧ (8 : Int) < 2 ^ 31)) ∧
    create_subnet_from_string (String.mk ("10.1.2.3".data ++ '/' :: fmt_d 8)) =
      .ok (create_subnet (ntohl (inet_addr "10.1.2.3".data)) (8 : Int).toNat) :=
  ⟨by decide,
   ((create_subnet_from_string_prefix_length "10.1.2.3".data 8 (by decide) (by decide)
      (by decide) (by decide) (by decide)).2.2.1 (by decide)).1⟩

/-! ## Degenerate prefix lengths and the printing loop -/

/-- C14 (the code at prefix lengths 31 and 32): `compute_assignable_addresses`
wraps around: for every `ip` it returns 4294967295 on `create_subnet ip 31`, a
block of 2 addresses, and 4294967294 on `create_subnet ip 32`, a block of 1. -/
theorem compute_assignable_addresses_wraps (ip : Nat) :
    compute_assignable_addresses (create_subnet ip 31) = 4294967295 ∧
    compute_assignable_addresses (create_subnet ip 32) = 4294967294 ∧
    2 ^ (32 - 31) < compute_assignable_addresses (create_subnet ip 31) ∧
    2 ^ (32 - 32) < compute_assignable_addresses (create_subnet ip 32) := by
  have h31 : compute_assignable_addresses (create_subnet ip 31) = 4294967295 := by
    show sub32 (not32 (shl32 ALL_ONES_MASK (32 - 31))) 2 = 4294967295
    decide
  have h32 : compute_assignable_addresses (create_subnet ip 32) = 4294967294 := by
    show sub32 (not32 (shl32 ALL_ONES_MASK (32 - 32))) 2 = 4294967294
    decide
  rw [h31, h32]
  decide

theorem print_ips_loop_top (fuel : Nat) : ∀ ip, ip < 2 ^ 32 →
    print_ips_loop fuel ip 0xFFFFFFFF = none := by
  induction fuel with
  | zero => intro ip _; rfl
  | succ f ih =>
    intro ip hip
    have hle : ip ≤ 0xFFFFFFFF := by omega
    have hnext : add32 ip 1 < 2 ^ 32 := Nat.mod_lt _ (by decide)
    rw [print_ips_loop, if_pos hle, ih _ hnext]
    rfl

/-- C18 (the code at 255.255.255.0/24 and at 192.168.1.2/30): on the subnet
255.255.255.0/24, whose broadcast address is 0xFFFFFFFF, the loop of
`print_ips_in_subnet` never ends (no amount of fuel yields the output); on
192.168.1.2/30 it prints 192.168.1.2 and 192.168.1.3 only, not the addresses
from the network address 192.168.1.0 on. -/
theorem print_ips_in_subnet_defects :
    create_subnet_from_string "255.255.255.0/24" = .ok (create_subnet 0xFFFFFF00 24) ∧
    (∀ fuel, print_ips_in_subnet fuel (create_subnet 0xFFFFFF00 24) = none) ∧
    create_subnet_from_string "192.168.1.2/30" = .ok (create_subnet 0xC0A80102 30) ∧
    (0xC0A80102 &&& (create_subnet 0xC0A80102 30).mask) = 0xC0A80100 ∧
    print_ips_in_subnet 3 (create_subnet 0xC0A80102 30) =
      some ["192.168.1.2", "192.168.1.3"] := by
  refine ⟨by decide, ?_, by decide, by decide, by decide⟩
  intro fuel
  exact print_ips_loop_top fuel 0xFFFFFF00 (by decide)

/-- C20 (the code at parent "192.168.4.0/23" with 129 subnets, block size 1): the
first record has usable-host count 4294967295, far above the block size 1, and
its host range runs from 192.168.4.1 back to 192.168.3.255. -/
theorem get_subnet_table_usable_hosts_wrap :
    ∃ rows r, get_subnet_table 9 "192.168.4.0/23" 129 = .ok rows ∧ rows[0]? = some r ∧
      subnet_table_at 1 8 = some 1 ∧
      r.data.num_usable_hosts = 4294967295 ∧
      r.data.network_id = "192.168.4.0" ∧
      r.data.host_range_start = "192.168.4.1" ∧
      r.data.host_range_end = "192.168.3.255" ∧
      r.data.broadcast_id = "192.168.4.0" := by
  have hp : create_subnet_from_string "192.168.4.0/23" = .ok ⟨0xC0A80400, 0xFFFFFE00⟩ := by
    decide
  obtain ⟨k, rows, dd, hk, -, hle, -, -, hres, -, hget⟩ :=
    @get_subnet_table_ok 9 129 _ _ hp (by decide) (by decide) (by decide)
  have hk8 : k = 8 := by
    interval_cases k <;> first | rfl | (exfalso; revert hle; decide)
  subst hk8
  have h0 := hget 0 (by decide)
  have hrow : subnet_row ((0xC0A80400 + 0 * (256 / 2 ^ 8)) % 2 ^ 32) (256 / 2 ^ 8) (24 + 8) =
      some
        { data :=
            { network_id := "192.168.4.0"
              host_range_start := "192.168.4.1"
              host_range_end := "192.168.3.255"
              broadcast_id := "192.168.4.0"
              num_usable_hosts := 4294967295 }
          subnet_mask := "/32 (255.255.255.255)" } := by
    decide
  rw [hrow] at h0
  exact ⟨rows, _, hres, h0, by decide, rfl, rfl, rfl, rfl, rfl⟩

/-! ## Whole tables -/

theorem hosts_pos {k : Nat} (hk : k < 9) : 1 ≤ 256 / 2 ^ k ∧ 2 ^ k * (256 / 2 ^ k) = 256 := by
  interval_cases k <;> decide

/-- Every record of the table returned by `get_subnet_table`, field by field. -/
theorem get_subnet_table_row {fuel n : Nat} {text : String} {s : Subnet}
    (hp : create_subnet_from_string text = .ok s) (h1 : 1 ≤ n) (h256 : n ≤ 256)
    (hf : 9 ≤ fuel) :
    ∃ k rows dd, k < 9 ∧ n ≤ 2 ^ k ∧ (k = 0 ∨ 2 ^ (k - 1) < n) ∧
      subnet_mask_dd[k]? = some dd ∧
      get_subnet_table fuel text n = .ok rows ∧ rows.length = n ∧
      ∀ i, i < n → rows[i]? =
        some
          { data :=
              { network_id := (to_ipv4 ((s.ip + i * (256 / 2 ^ k)) % 2 ^ 32)).addr
                host_range_start :=
                  (to_ipv4 (int_to_u32
                    ((((s.ip + i * (256 / 2 ^ k)) % 2 ^ 32 : Nat) : Int) + 1))).addr
                host_range_end :=
                  (to_ipv4 (int_to_u32
                    ((((s.ip + i * (256 / 2 ^ k)) % 2 ^ 32 : Nat) : Int) +
                      (256 / 2 ^ k : Nat) - 2))).addr
                broadcast_id :=
                  (to_ipv4 (int_to_u32
                    ((((s.ip + i * (256 / 2 ^ k)) % 2 ^ 32 : Nat) : Int) +
                      (256 / 2 ^ k : Nat) - 1))).addr
                num_usable_hosts := int_to_u32 (((256 / 2 ^ k : Nat) : Int) - 2) }
            subnet_mask :=
              snprintf 24 ('/' :: fmt_d ((24 + k : Nat) : Int) ++ ' ' :: '(' :: dd.data ++ [')']) } := by
  obtain ⟨k, rows, dd, hk, -, hle, hmin, hdd, hres, hlen, hget⟩ :=
    get_subnet_table_ok hp h1 h256 hf
  have hdd2 : subnet_mask_dd[(24 + k) - 24]? = some dd := by
    rw [Nat.add_sub_cancel_left]; exact hdd
  refine ⟨k, rows, dd, hk, hle, hmin, hdd, hres, hlen, ?_⟩
  intro i hi
  rw [hget i hi, subnet_row_some (Nat.le_add_right 24 k) hdd2]

theorem mask_text_table : ∀ k, k < 9 →
    subnet_mask_dd[k]? = some (to_ipv4 (create_subnet 0 (24 + k)).mask).addr ∧
    subnet_table_at 1 k = some (2 ^ (32 - (24 + k))) ∧
    subnet_table_at 2 k = some (24 + k) ∧
    snprintf 24 ('/' :: fmt_d ((24 + k : Nat) : Int) ++ ' ' :: '(' ::
        (to_ipv4 (create_subnet 0 (24 + k)).mask).addr.data ++ [')']) =
      String.mk ('/' :: fmt_u (24 + k) ++ ' ' :: '(' ::
        (to_ipv4 (create_subnet 0 (24 + k)).mask).addr.data ++ [')']) := by
  decide

/-- C15: on a parent text that parses and for a count `n` in [1,256], every record
carries the mask text "/P (M)" with `P = 24 + k`, `2^k` the smallest power of two
that is at least `n`, and `M` the dotted-decimal text `to_ipv4` of the `P`-bit
mask of `create_subnet`; the text is not cut by its 24-byte buffer; each of the
nine entries of `subnet_mask_dd` is the `to_ipv4` text of the mask for prefix
lengths 24..32, and the host count of `SUBNET_TABLE` at that index is `2^(32-P)`. -/
theorem get_subnet_table_mask_text (fuel n : Nat) (text : String) (s : Subnet)
    (hp : create_subnet_from_string text = .ok s) (h1 : 1 ≤ n) (h256 : n ≤ 256)
    (hf : 9 ≤ fuel) :
    (∃ k rows, k ≤ 8 ∧ n ≤ 2 ^ k ∧ (∀ j, n ≤ 2 ^ j → k ≤ j) ∧
      get_subnet_table fuel text n = .ok rows ∧ rows.length = n ∧
      (∀ i, i < n → ∃ r, rows[i]? = some r ∧
        r.subnet_mask =
          String.mk ('/' :: fmt_u (24 + k) ++ ' ' :: '(' ::
            (to_ipv4 (create_subnet s.ip (24 + k)).mask).addr.data ++ [')'])) ∧
      subnet_table_at 1 k = some (2 ^ (32 - (24 + k)))) ∧
    (∀ ip j, j < 9 →
      subnet_mask_dd[j]? = some (to_ipv4 (create_subnet ip (24 + j)).mask).addr ∧
      subnet_table_at 1 j = some (2 ^ (32 - (24 + j))) ∧
      subnet_table_at 2 j = some (24 + j)) := by
  refine ⟨?_, fun ip j hj => ⟨(mask_text_table j hj).1, (mask_text_table j hj).2.1,
    (mask_text_table j hj).2.2.1⟩⟩
  obtain ⟨k, rows, dd, hk, hle, hmin, hdd, hres, hlen, hget⟩ :=
    get_subnet_table_row hp h1 h256 hf
  obtain ⟨htab, hhosts, -, htext⟩ := mask_text_table k hk
  have hdd_eq : dd = (to_ipv4 (create_subnet 0 (24 + k)).mask).addr :=
    Option.some.inj (hdd.symm.trans htab)
  refine ⟨k, rows, by omega, hle, two_pow_minimal hmin, hres, hlen, ?_, hhosts⟩
  intro i hi
  refine ⟨_, hget i hi, ?_⟩
  show snprintf 24 ('/' :: fmt_d ((24 + k : Nat) : Int) ++ ' ' :: '(' :: dd.data ++ [')']) = _
  rw [hdd_eq]
  exact htext

/-- C15 at the parent "192.168.4.0/23" with 10 subnets and fuel 9. -/
theorem get_subnet_table_mask_text_witness :
    (create_subnet_from_string "192.168.4.0/23" = .ok ⟨0xC0A80400, 0xFFFFFE00⟩ ∧
      1 ≤ 10 ∧ 10 ≤ 256 ∧ 9 ≤ 9) ∧
    subnet_mask_dd[4]? = some (to_ipv4 (create_subnet 0xC0A80400 (24 + 4)).mask).addr :=
  ⟨by decide,
   ((get_subnet_table_mask_text 9 10 "192.168.4.0/23" ⟨0xC0A80400, 0xFFFFFE00⟩ (by decide)
      (by decide) (by decide) (by decide)).2 0xC0A80400 4 (by decide)).1⟩

/-- C17: on a parent text that parses to the address `N` and for a count `n` in
[1,256], with block size `H`, record `i` has network ID `net i = (N + i*H) mod 2^32`
and broadcast ID `bc i = (net i + H - 1) mod 2^32`; the network ID of record
`i + 1` is the broadcast ID of record `i` plus one modulo `2^32`; when
`N + n*H <= 2^32`, each block `[net i, bc i]` is non-empty in order and every
earlier block ends before a later one starts, so network IDs increase strictly
and the blocks are pairwise disjoint. -/
theorem get_subnet_table_contiguous (fuel n : Nat) (text : String) (s : Subnet)
    (hp : create_subnet_from_string text = .ok s) (h1 : 1 ≤ n) (h256 : n ≤ 256)
    (hf : 9 ≤ fuel) :
    ∃ (k H : Nat) (rows : List SubnetInfo) (net bc : Nat → Nat),
      n ≤ 2 ^ k ∧ (∀ j, n ≤ 2 ^ j → k ≤ j) ∧ H = 256 / 2 ^ k ∧
      get_subnet_table fuel text n = .ok rows ∧ rows.length = n ∧
      (∀ i, net i = (s.ip + i * H) % 2 ^ 32) ∧
      (∀ i, bc i = int_to_u32 ((net i : Int) + H - 1)) ∧
      (∀ i, i < n → net i < 2 ^ 32 ∧ bc i < 2 ^ 32 ∧ ∃ r, rows[i]? = some r ∧
        r.data.network_id = (to_ipv4 (net i)).addr ∧
        r.data.broadcast_id = (to_ipv4 (bc i)).addr) ∧
      (∀ i, i + 1 < n → net (i + 1) = (bc i + 1) % 2 ^ 32) ∧
      (s.ip + n * H ≤ 2 ^ 32 →
        (∀ i, i < n → net i ≤ bc i) ∧
        (∀ i j, i < j → j < n → net i < net j ∧ bc i < net j)) := by
  obtain ⟨k, rows, dd, hk, hle, hmin, hdd, hres, hlen, hget⟩ :=
    get_subnet_table_row hp h1 h256 hf
  obtain ⟨hH, -⟩ := hosts_pos hk
  refine ⟨k, 256 / 2 ^ k, rows, fun i => (s.ip + i * (256 / 2 ^ k)) % 2 ^ 32,
    fun i => int_to_u32 ((((s.ip + i * (256 / 2 ^ k)) % 2 ^ 32 : Nat) : Int) +
      (256 / 2 ^ k : Nat) - 1),
    hle, two_pow_minimal hmin, rfl, hres, hlen, fun i => rfl, fun i => rfl, ?_, ?_, ?_⟩
  · intro i hi
    refine ⟨Nat.mod_lt _ (by decide), ?_, _, hget i hi, rfl, rfl⟩
    beta_reduce
    unfold int_to_u32
    omega
  · intro i _
    have e : (i + 1) * (256 / 2 ^ k) = i * (256 / 2 ^ k) + 256 / 2 ^ k := by ring
    beta_reduce
    rw [e]
    generalize 256 / 2 ^ k = H at *
    generalize i * H = x
    unfold int_to_u32
    omega
  · intro hfit
    have hmul : ∀ i j, i < j → i * (256 / 2 ^ k) + 256 / 2 ^ k ≤ j * (256 / 2 ^ k) := by
      intro i j hij
      have h := Nat.mul_le_mul_right (256 / 2 ^ k) (Nat.succ_le_of_lt hij)
      rw [Nat.succ_mul] at h
      exact h
    generalize 256 / 2 ^ k = H at *
    constructor
    · intro i hi
      have h := hmul i n hi
      beta_reduce
      generalize n * H = nH at *
      generalize i * H = x at *
      unfold int_to_u32
      omega
    · intro i j hij hj
      have h := hmul i j hij
      have h2 := hmul j n hj
      beta_reduce
      generalize n * H = nH at *
      generalize i * H = x at *
      generalize j * H = y at *
      unfold int_to_u32
      omega

/-- C17 at the parent "10.0.0.0/8" with 3 subnets and fuel 9. -/
theorem get_subnet_table_contiguous_witness :
    (create_subnet_from_string "10.0.0.0/8" = .ok ⟨0x0A000000, 0xFF000000⟩ ∧
      1 ≤ 3 ∧ 3 ≤ 256 ∧ 9 ≤ 9) ∧
    ∃ rows, get_subnet_table 9 "10.0.0.0/8" 3 = .ok rows ∧ rows.length = 3 := by
  obtain ⟨k, H, rows, net, bc, -, -, -, hres, hlen, -⟩ :=
    get_subnet_table_contiguous 9 3 "10.0.0.0/8" ⟨0x0A000000, 0xFF000000⟩ (by decide)
      (by decide) (by decide) (by decide)
  exact ⟨by decide, rows, hres, hlen⟩

theorem create_subnet_from_string_cases (a : List Char) (N : Int) (hne : a ≠ [])
    (hlen : a.length ≤ 15) (hslash : '/' ∉ a) (h1 : 1 ≤ N) (h32 : N ≤ 32) :
    create_subnet_from_string (String.mk (a ++ '/' :: fmt_d N)) =
      if inet_addr a = INADDR_NONE then .error .invalid_address
      else .ok (create_subnet (ntohl (inet_addr a)) N.toNat) := by
  have hscan := sscanf_subnet_text a N hne hlen hslash
  have hn : ¬ (N ≤ 0 ∨ N > 32) := by omega
  unfold create_subnet_from_string create_subnet
  simp only [hscan, hn, if_false, shift_amount h1 h32]

theorem get_subnet_table_of_ip {fuel n : Nat} {t1 t2 : String} {s1 s2 : Subnet}
    (h1 : create_subnet_from_string t1 = .ok s1) (h2 : create_subnet_from_string t2 = .ok s2)
    (hip : s1.ip = s2.ip) : get_subnet_table fuel t1 n = get_subnet_table fuel t2 n := by
  unfold get_subnet_table
  simp only [h1, h2, hip]

theorem get_subnet_table_of_error {fuel n : Nat} {t1 t2 : String} {e : Failure}
    (h1 : create_subnet_from_string t1 = .error e)
    (h2 : create_subnet_from_string t2 = .error e) :
    get_subnet_table fuel t1 n = get_subnet_table fuel t2 n := by
  unfold get_subnet_table
  simp only [h1, h2]

/-- C19: for every address text `a` (non-empty, at most 15 characters, no `/`),
every two prefix lengths `p`, `q` in [1,32], every count and every fuel,
`get_subnet_table` on `a/p` and on `a/q` gives the same result, records and mask
text included; when the address is accepted and the count is in [1,256] that
result is a table whose mask text starts with the child prefix `24 + k`, `k` the
index found by the doubling loop. -/
theorem get_subnet_table_prefix_independent (a : List Char) (p q : Int) (n fuel : Nat)
    (hne : a ≠ []) (hlen : a.length ≤ 15) (hslash : '/' ∉ a)
    (hp : 1 ≤ p ∧ p ≤ 32) (hq : 1 ≤ q ∧ q ≤ 32) :
    get_subnet_table fuel (String.mk (a ++ '/' :: fmt_d p)) n =
      get_subnet_table fuel (String.mk (a ++ '/' :: fmt_d q)) n ∧
    (inet_addr a ≠ INADDR_NONE → 1 ≤ n → n ≤ 256 → 9 ≤ fuel →
      ∃ k rows dd, nearest_loop fuel 1 0 n = some (2 ^ k, k) ∧
        subnet_table_at 2 k = some (24 + k) ∧ subnet_mask_dd[k]? = some dd ∧
        get_subnet_table fuel (String.mk (a ++ '/' :: fmt_d p)) n = .ok rows ∧
        get_subnet_table fuel (String.mk (a ++ '/' :: fmt_d q)) n = .ok rows ∧
        rows.length = n ∧
        ∀ i, i < n → ∃ r, rows[i]? = some r ∧
          r.subnet_mask =
            snprintf 24 ('/' :: fmt_d ((24 + k : Nat) : Int) ++ ' ' :: '(' :: dd.data ++ [')'])) := by
  have hcp := create_subnet_from_string_cases a p hne hlen hslash hp.1 hp.2
  have hcq := create_subnet_from_string_cases a q hne hlen hslash hq.1 hq.2
  have heq : get_subnet_table fuel (String.mk (a ++ '/' :: fmt_d p)) n =
      get_subnet_table fuel (String.mk (a ++ '/' :: fmt_d q)) n := by
    by_cases hnone : inet_addr a = INADDR_NONE
    · rw [if_pos hnone] at hcp hcq
      exact get_subnet_table_of_error hcp hcq
    · rw [if_neg hnone] at hcp hcq
      exact get_subnet_table_of_ip hcp hcq rfl
  refine ⟨heq, ?_⟩
  intro haddr h1 h256 hf
  rw [if_neg haddr] at hcp
  obtain ⟨k, rows, dd, hk, hloop, hle, hmin, -, -, -, -⟩ :=
    get_subnet_table_ok hcp h1 h256 hf
  obtain ⟨k2, rows2, dd2, -, hle2, hmin2, hdd2, hres2, hlen2, hget⟩ :=
    get_subnet_table_row hcp h1 h256 hf
  have hkk : k = k2 :=
    Nat.le_antisymm (two_pow_minimal hmin k2 hle2) (two_pow_minimal hmin2 k hle)
  subst hkk
  refine ⟨k, rows2, dd2, hloop, (table_rows_at k hk).2.2.1, hdd2, hres2, heq ▸ hres2, hlen2, ?_⟩
  intro i hi
  exact ⟨_, hget i hi, rfl⟩

/-- C19 at the address "10.1.2.3" with prefix lengths 8 and 30, 5 subnets, fuel 9. -/
theorem get_subnet_table_prefix_independent_witness :
    ("10.1.2.3".data ≠ [] ∧ "10.1.2.3".data.length ≤ 15 ∧ '/' ∉ "10.1.2.3".data ∧
      ((1 : Int) ≤ 8 ∧ (8 : Int) ≤ 32) ∧ ((1 : Int) ≤ 30 ∧ (30 : Int) ≤ 32)) ∧
    get_subnet_table 9 (String.mk ("10.1.2.3".data ++ '/' :: fmt_d 8)) 5 =
      get_subnet_table 9 (String.mk ("10.1.2.3".data ++ '/' :: fmt_d 30)) 5 :=
  ⟨by decide,
   (get_subnet_table_prefix_independent "10.1.2.3".data 8 30 5 9 (by decide) (by decide)
      (by decide) (by decide) (by decide)).1⟩

/-- C16 (counterexample): for the parent "192.168.4.0/30", whose block is
192.168.4.0 to 192.168.4.3, and one requested subnet, the single record is the
block 192.168.4.0 to 192.168.4.255, which does not lie inside the parent. -/
theorem get_subnet_table_outside_parent :
    ∃ s rows r, create_subnet_from_string "192.168.4.0/30" = .ok s ∧
      get_subnet_table 9 "192.168.4.0/30" 1 = .ok rows ∧ rows[0]? = some r ∧
      r.data.network_id = (to_ipv4 0xC0A80400).addr ∧
      r.data.broadcast_id = (to_ipv4 0xC0A804FF).addr ∧
      (s.ip &&& s.mask) = 0xC0A80400 ∧
      (s.ip ||| not32 s.mask) = 0xC0A80403 ∧
      ¬ (0xC0A804FF ≤ (s.ip ||| not32 s.mask)) := by
  have hrows : get_subnet_table 9 "192.168.4.0/30" 1 =
      .ok [{ data :=
               { network_id := "192.168.4.0"
                 host_range_start := "192.168.4.1"
                 host_range_end := "192.168.4.254"
                 broadcast_id := "192.168.4.255"
                 num_usable_hosts := 254 }
             subnet_mask := "/24 (255.255.255.0)" }] := by
    decide
  exact ⟨create_subnet 0xC0A80400 30, _, _, by decide, hrows, rfl, by decide, by decide,
    by decide, by decide, by decide⟩

theorem land_not32_mask {ip p : Nat} (h1 : 1 ≤ p) (h2 : p ≤ 32) :
    not32 (create_subnet ip p).mask = 2 ^ (32 - p) - 1 ∧
    ip &&& not32 (create_subnet ip p).mask = ip % 2 ^ (32 - p) := by
  rw [create_subnet_mask ip h1 h2, not32_mask (by omega), Nat.and_pow_two_sub_one_eq_mod]
  exact ⟨rfl, rfl⟩


/-- C16 (amended): on a parent text that parses to `(ip, mask)` with prefix length
`p`, and for a count `n` in [1,256] with block size `H`, every record's block
`[network ID, broadcast ID]` lies inside the parent's block `[ip & mask, ip | ~mask]`
whenever the records fit, `(ip & ~mask) + n*H <= ~mask + 1`; this is the case
whenever `p <= 24` and `ip` is the parent's network address. -/
theorem get_subnet_table_inside_parent (fuel n p : Nat) (text : String) (s : Subnet)
    (hp : create_subnet_from_string text = .ok s)
    (hmask : s.mask = (create_subnet s.ip p).mask) (hp1 : 1 ≤ p) (hp32 : p ≤ 32)
    (h1 : 1 ≤ n) (h256 : n ≤ 256) (hf : 9 ≤ fuel) :
    ∃ (k H : Nat) (rows : List SubnetInfo) (net bc : Nat → Nat),
      n ≤ 2 ^ k ∧ (∀ j, n ≤ 2 ^ j → k ≤ j) ∧ H = 256 / 2 ^ k ∧
      get_subnet_table fuel text n = .ok rows ∧ rows.length = n ∧
      (∀ i, net i = (s.ip + i * H) % 2 ^ 32) ∧
      (∀ i, bc i = int_to_u32 ((net i : Int) + H - 1)) ∧
      (∀ i, i < n → ∃ r, rows[i]? = some r ∧
        r.data.network_id = (to_ipv4 (net i)).addr ∧
        r.data.broadcast_id = (to_ipv4 (bc i)).addr) ∧
      ((s.ip &&& not32 s.mask) + n * H ≤ not32 s.mask + 1 →
        ∀ i, i < n →
          (s.ip &&& s.mask) ≤ net i ∧ net i ≤ bc i ∧ bc i ≤ (s.ip ||| not32 s.mask)) ∧
      (p ≤ 24 → s.ip &&& s.mask = s.ip →
        ∀ i, i < n →
          (s.ip &&& s.mask) ≤ net i ∧ net i ≤ bc i ∧ bc i ≤ (s.ip ||| not32 s.mask)) := by
  obtain ⟨k, rows, dd, hk, hle, hmin, hdd, hres, hlen, hget⟩ :=
    get_subnet_table_row hp h1 h256 hf
  obtain ⟨hH, hfull⟩ := hosts_pos hk
  have hip := create_subnet_from_string_ip_lt hp
  obtain ⟨hnet, hbc⟩ := network_broadcast hip hp1 hp32
  obtain ⟨hnot, hhost⟩ := @land_not32_mask s.ip p hp1 hp32
  rw [← hmask] at hnet hbc hnot hhost
  have htop := block_top hip (by omega : 32 - p ≤ 32)
  have hdm := Nat.div_add_mod s.ip (2 ^ (32 - p))
  have hpos : 0 < 2 ^ (32 - p) := Nat.two_pow_pos _
  have hfit : (s.ip &&& not32 s.mask) + n * (256 / 2 ^ k) ≤ not32 s.mask + 1 →
      ∀ i, i < n →
        (s.ip &&& s.mask) ≤ (s.ip + i * (256 / 2 ^ k)) % 2 ^ 32 ∧
        (s.ip + i * (256 / 2 ^ k)) % 2 ^ 32 ≤
          int_to_u32 ((((s.ip + i * (256 / 2 ^ k)) % 2 ^ 32 : Nat) : Int) +
            (256 / 2 ^ k : Nat) - 1) ∧
        int_to_u32 ((((s.ip + i * (256 / 2 ^ k)) % 2 ^ 32 : Nat) : Int) +
            (256 / 2 ^ k : Nat) - 1) ≤ (s.ip ||| not32 s.mask) := by
    intro hfits i hi
    have hmul : i * (256 / 2 ^ k) + 256 / 2 ^ k ≤ n * (256 / 2 ^ k) := by
      have h := Nat.mul_le_mul_right (256 / 2 ^ k) (Nat.succ_le_of_lt hi)
      rw [Nat.succ_mul] at h
      exact h
    rw [hnet, hbc]
    rw [hhost, hnot] at hfits
    generalize 256 / 2 ^ k = H at *
    generalize n * H = nH at *
    generalize i * H = x at *
    generalize 2 ^ (32 - p) * (s.ip / 2 ^ (32 - p)) = base at *
    generalize s.ip % 2 ^ (32 - p) = host at *
    generalize 2 ^ (32 - p) = K at *
    unfold int_to_u32
    omega
  refine ⟨k, 256 / 2 ^ k, rows, fun i => (s.ip + i * (256 / 2 ^ k)) % 2 ^ 32,
    fun i => int_to_u32 ((((s.ip + i * (256 / 2 ^ k)) % 2 ^ 32 : Nat) : Int) +
      (256 / 2 ^ k : Nat) - 1),
    hle, two_pow_minimal hmin, rfl, hres, hlen, fun i => rfl, fun i => rfl, ?_, hfit, ?_⟩
  · intro i hi
    exact ⟨_, hget i hi, rfl, rfl⟩
  · intro hp24 halign
    apply hfit
    have hK : 2 ^ 8 ≤ 2 ^ (32 - p) := Nat.pow_le_pow_right (by decide) (by omega)
    have hnH : n * (256 / 2 ^ k) ≤ 256 := by
      calc n * (256 / 2 ^ k) ≤ 2 ^ k * (256 / 2 ^ k) := Nat.mul_le_mul_right _ hle
        _ = 256 := hfull
    rw [hnet] at halign
    rw [hhost, hnot]
    generalize 256 / 2 ^ k = H at *
    generalize n * H = nH at *
    generalize 2 ^ (32 - p) * (s.ip / 2 ^ (32 - p)) = base at *
    generalize s.ip % 2 ^ (32 - p) = host at *
    generalize 2 ^ (32 - p) = K at *
    omega

/-- C16 (amended) at the parent "192.168.4.0/23" with 10 subnets and fuel 9. -/
theorem get_subnet_table_inside_parent_witness :
    (create_subnet_from_string "192.168.4.0/23" = .ok ⟨0xC0A80400, 0xFFFFFE00⟩ ∧
      (0xFFFFFE00 = (create_subnet 0xC0A80400 23).mask) ∧ 1 ≤ 23 ∧ 23 ≤ 32 ∧
      1 ≤ 10 ∧ 10 ≤ 256 ∧ 9 ≤ 9) ∧
    ∃ rows, get_subnet_table 9 "192.168.4.0/23" 10 = .ok rows ∧ rows.length = 10 := by
  obtain ⟨k, H, rows, net, bc, -, -, -, hres, hlen, -⟩ :=
    get_subnet_table_inside_parent 9 10 23 "192.168.4.0/23" ⟨0xC0A80400, 0xFFFFFE00⟩
      (by decide) (by decide) (by decide) (by decide) (by decide) (by decide) (by decide)
  exact ⟨by decide, rows, hres, hlen⟩

/-! ## Dotted-decimal text: printing and reading back -/

theorem toDigitsCore_append (fuel : Nat) : ∀ (n : Nat) (ds : List Char),
    Nat.toDigitsCore 10 fuel n ds = Nat.toDigitsCore 10 fuel n [] ++ ds := by
  induction fuel with
  | zero => intro n ds; rfl
  | succ f ih =>
    intro n ds
    rw [Nat.toDigitsCore, Nat.toDigitsCore]
    by_cases h0 : n / 10 = 0
    · simp only [h0, if_true, List.singleton_append]
    · simp only [h0, if_false]
      rw [ih (n / 10) (Nat.digitChar (n % 10) :: ds), ih (n / 10) [Nat.digitChar (n % 10)]]
      simp

theorem toDigitsCore_head_pos (fuel : Nat) : ∀ (n : Nat) (ds : List Char), n < fuel → 1 ≤ n →
    ∃ d rest, 1 ≤ d ∧ d < 10 ∧ Nat.toDigitsCore 10 fuel n ds = Nat.digitChar d :: rest := by
  induction fuel with
  | zero => intro n ds h; omega
  | succ f ih =>
    intro n ds hn h1
    rw [Nat.toDigitsCore]
    by_cases h0 : n / 10 = 0
    · exact ⟨n % 10, ds, by omega, Nat.mod_lt _ (by decide), by simp only [h0, if_true]⟩
    · obtain ⟨d, rest, hd1, hd, hrest⟩ :=
        ih (n / 10) (Nat.digitChar (n % 10) :: ds) (by omega) (by omega)
      exact ⟨d, rest, hd1, hd, by simp only [h0, if_false]; exact hrest⟩

theorem fmt_u_head_pos {n : Nat} (h1 : 1 ≤ n) :
    ∃ d rest, 1 ≤ d ∧ d < 10 ∧ fmt_u n = Nat.digitChar d :: rest :=
  toDigitsCore_head_pos (n + 1) n [] (Nat.lt_succ_self n) h1

theorem toDigitsCore_chars (fuel : Nat) : ∀ (n : Nat) (ds : List Char) (c : Char),
    c ∈ Nat.toDigitsCore 10 fuel n ds → (∃ d, d < 10 ∧ c = Nat.digitChar d) ∨ c ∈ ds := by
  induction fuel with
  | zero => intro n ds c h; exact Or.inr h
  | succ f ih =>
    intro n ds c h
    rw [Nat.toDigitsCore] at h
    by_cases h0 : n / 10 = 0
    · simp only [h0, if_true, List.mem_cons] at h
      rcases h with h | h
      · exact Or.inl ⟨n % 10, Nat.mod_lt _ (by decide), h⟩
      · exact Or.inr h
    · simp only [h0, if_false] at h
      rcases ih _ _ c h with h | h
      · exact Or.inl h
      · rcases List.mem_cons.mp h with h | h
        · exact Or.inl ⟨n % 10, Nat.mod_lt _ (by decide), h⟩
        · exact Or.inr h

theorem fmt_u_chars {n : Nat} {c : Char} (h : c ∈ fmt_u n) : ∃ d, d < 10 ∧ c = Nat.digitChar d := by
  rcases toDigitsCore_chars (n + 1) n [] c h with h | h
  · exact h
  · cases h

theorem digitChar_more : ∀ d, d < 10 →
    Nat.digitChar d ≠ '/' ∧ Nat.digitChar d ≠ '.' ∧ (1 ≤ d → Nat.digitChar d ≠ '0') ∧
    Nat.digitChar d.succ ≠ '0' := by
  decide

theorem fmt_u_ne_nil (n : Nat) : fmt_u n ≠ [] := by
  obtain ⟨d, rest, -, h⟩ := toDigits_head n
  unfold fmt_u
  rw [h]
  exact List.cons_ne_nil _ _

theorem fmt_u_zero : fmt_u 0 = ['0'] := rfl

theorem scan_base_stop (b acc : Nat) (rest : List Char)
    (hrest : rest = [] ∨ ∃ t, rest = '.' :: t) : scan_base b rest acc = (acc, rest) := by
  rcases hrest with h | ⟨t, h⟩
  · subst h; rfl
  · subst h
    rw [scan_base]
    have : digit_val '.' = none := by decide
    rw [this]

theorem scan_fmt_u_append (n : Nat) (rest : List Char)
    (hrest : rest = [] ∨ ∃ t, rest = '.' :: t) :
    scan_base 10 (fmt_u n ++ rest) 0 = (n, rest) := by
  unfold fmt_u Nat.toDigits
  rw [← toDigitsCore_append]
  obtain ⟨e, he⟩ := scan_toDigitsCore (n + 1) n rest (Nat.lt_succ_self n)
  rw [he 0, scan_base_stop _ _ _ hrest]
  simp

theorem strtoul0_fmt_u (n : Nat) (rest : List Char)
    (hrest : rest = [] ∨ ∃ t, rest = '.' :: t) :
    strtoul0 (fmt_u n ++ rest) = (n, rest) := by
  rcases Nat.eq_zero_or_pos n with h0 | hpos
  · subst h0
    rw [fmt_u_zero]
    have h8 : scan_base 8 (['0'] ++ rest) 0 = (0, rest) := by
      show scan_base 8 ('0' :: rest) 0 = (0, rest)
      rw [scan_base]
      have : digit_val '0' = some 0 := by decide
      rw [this]
      simp only [Nat.zero_lt_succ, if_true]
      exact scan_base_stop _ _ _ hrest
    rcases hrest with h | ⟨t, h⟩
    · subst h
      exact h8
    · subst h
      cases t with
      | nil => exact h8
      | cons h t =>
        unfold strtoul0
        have hx : ¬ (('.' = 'x' ∨ '.' = 'X') ∧ (digit_val h).isSome = true) := by
          intro hc
          rcases hc.1 with h1 | h1 <;> exact absurd h1 (by decide)
        simp only [List.singleton_append, hx, if_false]
        exact h8
  · obtain ⟨d, tl, hd1, hd, htl⟩ := fmt_u_head_pos hpos
    have hne : Nat.digitChar d ≠ '0' := (digitChar_more d hd).2.2.1 hd1
    have hscan := scan_fmt_u_append n rest hrest
    rw [htl] at hscan ⊢
    unfold strtoul0
    split
    · next x h t heq => exact absurd (List.cons.inj heq).1 hne
    · next heq => exact absurd (List.cons.inj heq).1 hne
    · exact hscan

theorem fmt_u_head_digit (n : Nat) (rest : List Char) :
    ∃ c t, fmt_u n ++ rest = c :: t ∧ ('0' ≤ c ∧ c ≤ '9') := by
  obtain ⟨d, tl, hd, h⟩ := toDigits_head n
  exact ⟨Nat.digitChar d, tl ++ rest, by unfold fmt_u; rw [h]; rfl, (digitChar_facts d hd).2.2.2.2⟩

theorem inet_aton_step_dot (f : Nat) (bytes : List Nat) (n : Nat) (cp2 : List Char) :
    inet_aton_loop (f + 1) bytes (fmt_u n ++ '.' :: cp2) =
      if n > 0xffffffff then none
      else if bytes.length > 2 ∨ n > 0xff then none
      else inet_aton_loop f (bytes ++ [n]) cp2 := by
  obtain ⟨c, t, hct, hdig⟩ := fmt_u_head_digit n ('.' :: cp2)
  have hs := strtoul0_fmt_u n ('.' :: cp2) (Or.inr ⟨cp2, rfl⟩)
  rw [hct] at hs ⊢
  rw [inet_aton_loop]
  simp only [hdig, and_self, not_true_eq_false, if_false, hs]

theorem inet_aton_step_end (f : Nat) (bytes : List Nat) (n : Nat) :
    inet_aton_loop (f + 1) bytes (fmt_u n) =
      if n > 0xffffffff then none
      else if n > inet_max.getD bytes.length 0 then none
      else some ((bytes.getD 0 0) * 2 ^ 24 + (bytes.getD 1 0) * 2 ^ 16 +
        (bytes.getD 2 0) * 2 ^ 8 + n) := by
  obtain ⟨c, t, hct, hdig⟩ := fmt_u_head_digit n []
  have hs := strtoul0_fmt_u n [] (Or.inl rfl)
  rw [List.append_nil] at hct hs
  rw [hct] at hs ⊢
  rw [inet_aton_loop]
  have htrail : trailing_ok [] = true := rfl
  simp only [hdig, and_self, not_true_eq_false, if_false, hs, htrail, Bool.true_eq_false]

theorem dotted_quad_nested (a b c d : Nat) :
    dotted_quad a b c d =
      fmt_u a ++ ('.' :: (fmt_u b ++ ('.' :: (fmt_u c ++ ('.' :: fmt_u d))))) := by
  simp [dotted_quad]

theorem inet_aton_dotted_quad (a b c d : Nat) :
    inet_aton_loop 4 [] (dotted_quad a b c d) =
      if a ≤ 255 ∧ b ≤ 255 ∧ c ≤ 255 ∧ d ≤ 255 then
        some (a * 2 ^ 24 + b * 2 ^ 16 + c * 2 ^ 8 + d)
      else none := by
  rw [dotted_quad_nested, inet_aton_step_dot]
  by_cases ha : a ≤ 255
  · have ha1 : ¬ a > 0xffffffff := by omega
    have ha2 : ¬ (([] : List Nat).length > 2 ∨ a > 0xff) := by simp; omega
    rw [if_neg ha1, if_neg ha2, inet_aton_step_dot]
    by_cases hb : b ≤ 255
    · have hb1 : ¬ b > 0xffffffff := by omega
      have hb2 : ¬ ((([] : List Nat) ++ [a]).length > 2 ∨ b > 0xff) := by simp; omega
      rw [if_neg hb1, if_neg hb2, inet_aton_step_dot]
      by_cases hc : c ≤ 255
      · have hc1 : ¬ c > 0xffffffff := by omega
        have hc2 : ¬ ((([] : List Nat) ++ [a] ++ [b]).length > 2 ∨ c > 0xff) := by simp; omega
        rw [if_neg hc1, if_neg hc2, inet_aton_step_end]
        by_cases hd : d ≤ 255
        · have hd1 : ¬ d > 0xffffffff := by omega
          have hd2 : ¬ d > inet_max.getD (([] : List Nat) ++ [a] ++ [b] ++ [c]).length 0 := by
            simp [inet_max]; omega
          rw [if_neg hd1, if_neg hd2, if_pos ⟨ha, hb, hc, hd⟩]
          simp
        · have hd2 : d > inet_max.getD (([] : List Nat) ++ [a] ++ [b] ++ [c]).length 0 := by
            simp [inet_max]; omega
          have hR : ¬ (a ≤ 255 ∧ b ≤ 255 ∧ c ≤ 255 ∧ d ≤ 255) := fun h => hd h.2.2.2
          rw [if_neg hR]
          split_ifs <;> rfl
      · have hR : ¬ (a ≤ 255 ∧ b ≤ 255 ∧ c ≤ 255 ∧ d ≤ 255) := fun h => hc h.2.2.1
        rw [if_neg hR]
        have hc2 : (([] : List Nat) ++ [a] ++ [b]).length > 2 ∨ c > 0xff := Or.inr (by omega)
        split_ifs <;> rfl
    · have hR : ¬ (a ≤ 255 ∧ b ≤ 255 ∧ c ≤ 255 ∧ d ≤ 255) := fun h => hb h.2.1
      rw [if_neg hR]
      have hb2 : (([] : List Nat) ++ [a]).length > 2 ∨ b > 0xff := Or.inr (by omega)
      split_ifs <;> rfl
  · have hR : ¬ (a ≤ 255 ∧ b ≤ 255 ∧ c ≤ 255 ∧ d ≤ 255) := fun h => ha h.1
    rw [if_neg hR]
    have ha2 : ([] : List Nat).length > 2 ∨ a > 0xff := Or.inr (by omega)
    split_ifs <;> rfl

theorem octet_eq (ip s : Nat) : (ip >>> s) &&& 0xFF = ip / 2 ^ s % 256 := by
  rw [Nat.shiftRight_eq_div_pow]
  exact Nat.and_pow_two_sub_one_eq_mod _ 8

theorem fmt_ip_eq (ip : Nat) :
    fmt_ip ip = dotted_quad (ip / 2 ^ 24 % 256) (ip / 2 ^ 16 % 256) (ip / 2 ^ 8 % 256) (ip % 256) := by
  unfold fmt_ip dotted_quad
  rw [octet_eq, octet_eq, octet_eq]
  have h0 : ip &&& 0xFF = ip % 256 := Nat.and_pow_two_sub_one_eq_mod ip 8
  rw [h0]

theorem octets_sum {ip : Nat} (hip : ip < 2 ^ 32) :
    (ip / 2 ^ 24 % 256) * 2 ^ 24 + (ip / 2 ^ 16 % 256) * 2 ^ 16 + (ip / 2 ^ 8 % 256) * 2 ^ 8 +
      ip % 256 = ip := by
  omega

theorem inet_aton_fmt_ip {ip : Nat} (hip : ip < 2 ^ 32) :
    inet_aton_loop 4 [] (fmt_ip ip) = some ip := by
  rw [fmt_ip_eq, inet_aton_dotted_quad, octets_sum hip]
  have h : ip / 2 ^ 24 % 256 ≤ 255 ∧ ip / 2 ^ 16 % 256 ≤ 255 ∧ ip / 2 ^ 8 % 256 ≤ 255 ∧
      ip % 256 ≤ 255 := by omega
  rw [if_pos h]

theorem bswap32_bytes {b3 b2 b1 b0 : Nat} (h3 : b3 < 256) (h2 : b2 < 256) (h1 : b1 < 256)
    (h0 : b0 < 256) :
    bswap32 (b3 * 2 ^ 24 + b2 * 2 ^ 16 + b1 * 2 ^ 8 + b0) =
      b0 * 2 ^ 24 + b1 * 2 ^ 16 + b2 * 2 ^ 8 + b3 := by
  unfold bswap32
  omega

theorem bswap32_bswap32 {x : Nat} (hx : x < 2 ^ 32) : bswap32 (bswap32 x) = x := by
  have hs := octets_sum hx
  have h3 : x / 2 ^ 24 % 256 < 256 := Nat.mod_lt _ (by decide)
  have h2 : x / 2 ^ 16 % 256 < 256 := Nat.mod_lt _ (by decide)
  have h1 : x / 2 ^ 8 % 256 < 256 := Nat.mod_lt _ (by decide)
  have h0 : x % 256 < 256 := Nat.mod_lt _ (by decide)
  have e1 := bswap32_bytes h3 h2 h1 h0
  rw [hs] at e1
  rw [e1, bswap32_bytes h0 h1 h2 h3]
  exact hs

theorem bswap32_eq_ones {x : Nat} (hx : x < 2 ^ 32) : bswap32 x = 0xFFFFFFFF ↔ x = 0xFFFFFFFF := by
  constructor
  · intro h
    have h2 := bswap32_bswap32 hx
    rw [h] at h2
    rw [← h2]
    decide
  · intro h
    subst h
    decide

set_option maxRecDepth 100000 in
theorem fmt_u_octet : ∀ o, o < 256 →
    1 ≤ (fmt_u o).length ∧ (fmt_u o).length ≤ 3 ∧
    (∀ c ∈ fmt_u o, '0' ≤ c ∧ c ≤ '9') ∧
    (fmt_u o).foldl (fun acc c => acc * 10 + (c.toNat - 48)) 0 = o ∧
    ((fmt_u o).head? = some '0' → fmt_u o = ['0']) := by
  decide

theorem dotted_quad_chars {a b c d : Nat} {x : Char} (hx : x ∈ dotted_quad a b c d) :
    x = '.' ∨ ∃ t, t < 10 ∧ x = Nat.digitChar t := by
  unfold dotted_quad at hx
  simp only [List.mem_append, List.mem_cons] at hx
  rcases hx with ((h | h | h) | h | h) | h | h
  · exact Or.inr (fmt_u_chars h)
  · exact Or.inl h
  · exact Or.inr (fmt_u_chars h)
  · exact Or.inl h
  · exact Or.inr (fmt_u_chars h)
  · exact Or.inl h
  · exact Or.inr (fmt_u_chars h)

theorem dotted_quad_no_slash (a b c d : Nat) : '/' ∉ dotted_quad a b c d := by
  intro h
  rcases dotted_quad_chars h with h | ⟨t, ht, h⟩
  · exact absurd h (by decide)
  · exact (digitChar_more t ht).1 h.symm

theorem dotted_quad_ne_nil (a b c d : Nat) : dotted_quad a b c d ≠ [] := by
  rw [dotted_quad_nested]
  intro h
  exact fmt_u_ne_nil a (List.append_eq_nil.mp h).1

theorem dotted_quad_length (a b c d : Nat) :
    (dotted_quad a b c d).length =
      (fmt_u a).length + (fmt_u b).length + (fmt_u c).length + (fmt_u d).length + 3 := by
  unfold dotted_quad
  simp only [List.length_append, List.length_cons]
  omega

theorem fmt_ip_length (ip : Nat) : 7 ≤ (fmt_ip ip).length ∧ (fmt_ip ip).length ≤ 15 := by
  rw [fmt_ip_eq, dotted_quad_length]
  have h3 := fmt_u_octet (ip / 2 ^ 24 % 256) (Nat.mod_lt _ (by decide))
  have h2 := fmt_u_octet (ip / 2 ^ 16 % 256) (Nat.mod_lt _ (by decide))
  have h1 := fmt_u_octet (ip / 2 ^ 8 % 256) (Nat.mod_lt _ (by decide))
  have h0 := fmt_u_octet (ip % 256) (Nat.mod_lt _ (by decide))
  omega

theorem to_ipv4_addr (ip : Nat) : (to_ipv4 ip).addr = String.mk (fmt_ip ip) := by
  unfold to_ipv4 snprintf
  rw [List.take_of_length_le (by have := (fmt_ip_length ip).2; omega)]

theorem to_ipv4_injective {ip ip2 : Nat} (h1 : ip < 2 ^ 32) (h2 : ip2 < 2 ^ 32)
    (h : to_ipv4 ip = to_ipv4 ip2) : ip = ip2 := by
  have ha : (to_ipv4 ip).addr = (to_ipv4 ip2).addr := by rw [h]
  rw [to_ipv4_addr, to_ipv4_addr] at ha
  have hl : fmt_ip ip = fmt_ip ip2 := congrArg String.data ha
  have e1 := inet_aton_fmt_ip h1
  rw [hl, inet_aton_fmt_ip h2] at e1
  exact (Option.some.inj e1).symm

/-- C13: for every 32-bit `ip`, `to_ipv4 ip` is the text of the four octets
`(ip>>24)&0xFF`, `(ip>>16)&0xFF`, `(ip>>8)&0xFF`, `ip&0xFF` in that order, each
printed in decimal (digits only, reading back to the octet, one to three
characters, a leading `0` only for the octet 0 itself), joined by single `.`
characters and nothing else; the text has 7 to 15 characters, so the 16-byte
buffer never cuts it; and `to_ipv4` is injective on 32-bit addresses. -/
theorem to_ipv4_spec (ip : Nat) (hip : ip < 2 ^ 32) :
    (to_ipv4 ip).addr.data =
      fmt_u ((ip >>> 24) &&& 0xFF) ++ '.' :: fmt_u ((ip >>> 16) &&& 0xFF) ++
        '.' :: fmt_u ((ip >>> 8) &&& 0xFF) ++ '.' :: fmt_u (ip &&& 0xFF) ∧
    (∀ o, o ∈ [(ip >>> 24) &&& 0xFF, (ip >>> 16) &&& 0xFF, (ip >>> 8) &&& 0xFF, ip &&& 0xFF] →
      o < 256 ∧ 1 ≤ (fmt_u o).length ∧ (fmt_u o).length ≤ 3 ∧
      (∀ c ∈ fmt_u o, '0' ≤ c ∧ c ≤ '9') ∧
      (fmt_u o).foldl (fun acc c => acc * 10 + (c.toNat - 48)) 0 = o ∧
      ((fmt_u o).head? = some '0' → fmt_u o = ['0'])) ∧
    ((ip >>> 24) &&& 0xFF) * 2 ^ 24 + ((ip >>> 16) &&& 0xFF) * 2 ^ 16 +
      ((ip >>> 8) &&& 0xFF) * 2 ^ 8 + (ip &&& 0xFF) = ip ∧
    (∀ c ∈ (to_ipv4 ip).addr.data, c = '.' ∨ ('0' ≤ c ∧ c ≤ '9')) ∧
    7 ≤ (to_ipv4 ip).addr.length ∧ (to_ipv4 ip).addr.length ≤ 15 ∧
    (to_ipv4 ip).addr = String.mk (fmt_ip ip) ∧
    (∀ ip2, ip2 < 2 ^ 32 → to_ipv4 ip = to_ipv4 ip2 → ip = ip2) := by
  have h0 : ip &&& 0xFF = ip % 256 := Nat.and_pow_two_sub_one_eq_mod ip 8
  refine ⟨by rw [to_ipv4_addr]; rfl, ?_, ?_, ?_, ?_, ?_, to_ipv4_addr ip,
    fun ip2 h2 h => to_ipv4_injective hip h2 h⟩
  · intro o ho
    have hlt : o < 256 := by
      simp only [List.mem_cons, List.mem_singleton, List.not_mem_nil, or_false] at ho
      rw [octet_eq, octet_eq, octet_eq, h0] at ho
      rcases ho with h | h | h | h <;> rw [h] <;> exact Nat.mod_lt _ (by decide)
    exact ⟨hlt, fmt_u_octet o hlt⟩
  · rw [octet_eq, octet_eq, octet_eq, h0]
    exact octets_sum hip
  · intro c hc
    rw [to_ipv4_addr, fmt_ip_eq] at hc
    rcases dotted_quad_chars hc with h | ⟨t, ht, h⟩
    · exact Or.inl h
    · exact Or.inr (h ▸ (digitChar_facts t ht).2.2.2.2)
  · rw [to_ipv4_addr]
    exact (fmt_ip_length ip).1
  · rw [to_ipv4_addr]
    exact (fmt_ip_length ip).2

/-- C13 at 192.168.1.1. -/
theorem to_ipv4_spec_witness :
    (0xC0A80101 < 2 ^ 32) ∧ 7 ≤ (to_ipv4 0xC0A80101).addr.length ∧
    (to_ipv4 0xC0A80101).addr.length ≤ 15 :=
  ⟨by decide, (to_ipv4_spec 0xC0A80101 (by decide)).2.2.2.2.1,
    (to_ipv4_spec 0xC0A80101 (by decide)).2.2.2.2.2.1⟩

theorem create_subnet_from_string_to_ipv4 {ip : Nat} (hip : ip < 2 ^ 32) (N : Int)
    (h1 : 1 ≤ N) (h32 : N ≤ 32) :
    create_subnet_from_string (String.mk ((to_ipv4 ip).addr.data ++ '/' :: fmt_d N)) =
      if ip = 0xFFFFFFFF then .error .invalid_address
      else .ok (create_subnet ip N.toNat) := by
  rw [to_ipv4_addr]
  have hne : fmt_ip ip ≠ [] := by rw [fmt_ip_eq]; exact dotted_quad_ne_nil _ _ _ _
  have hsl : '/' ∉ fmt_ip ip := by rw [fmt_ip_eq]; exact dotted_quad_no_slash _ _ _ _
  have hcases := create_subnet_from_string_cases (fmt_ip ip) N hne (fmt_ip_length ip).2 hsl h1 h32
  have haddr : inet_addr (fmt_ip ip) = bswap32 ip := by
    unfold inet_addr
    rw [inet_aton_fmt_ip hip]
    rfl
  rw [hcases, haddr]
  have hiff : bswap32 ip = INADDR_NONE ↔ ip = 0xFFFFFFFF := bswap32_eq_ones hip
  by_cases hones : ip = 0xFFFFFFFF
  · rw [if_pos (hiff.mpr hones), if_pos hones]
  · rw [if_neg (fun h => hones (hiff.mp h)), if_neg hones]
    unfold ntohl
    rw [bswap32_bswap32 hip]

/-- C12 (the code at ip = 0xFFFFFFFF): `to_ipv4` gives "255.255.255.255", and
parsing "255.255.255.255/24" fails with the address failure, because `inet_addr`
returns `INADDR_NONE` (0xFFFFFFFF) both for a rejected text and for this address. -/
theorem round_trip_fails_at_all_ones :
    (to_ipv4 0xFFFFFFFF).addr = "255.255.255.255" ∧
    inet_aton_loop 4 [] "255.255.255.255".data = some 0xFFFFFFFF ∧
    inet_addr "255.255.255.255".data = INADDR_NONE ∧
    create_subnet_from_string (String.mk ((to_ipv4 0xFFFFFFFF).addr.data ++ '/' :: fmt_d 24)) =
      .error .invalid_address ∧
    create_subnet_from_string "255.255.255.255/24" = .error .invalid_address := by
  decide

theorem int_to_u32_add_sub_one (x H : Nat) (h : 1 ≤ H) :
    int_to_u32 ((x : Int) + H - 1) = (x + (H - 1)) % 2 ^ 32 := by
  unfold int_to_u32
  omega

theorem int_to_u32_add_sub_two (x H : Nat) (h : 2 ≤ H) :
    int_to_u32 ((x : Int) + H - 2) = (x + (H - 2)) % 2 ^ 32 := by
  unfold int_to_u32
  omega

theorem int_to_u32_add_one (x : Nat) : int_to_u32 ((x : Int) + 1) = (x + 1) % 2 ^ 32 := by
  unfold int_to_u32
  omega

theorem int_to_u32_sub_two {H : Nat} (h2 : 2 ≤ H) (hH : H < 2 ^ 32) :
    int_to_u32 ((H : Int) - 2) = H - 2 := by
  unfold int_to_u32
  omega

/-- C7 (counterexample): for the parent "255.255.255.128/25" and two requested
subnets the block size is 128 and `N + 1*128` is `2^32`, which is no 32-bit
address; the second record's network ID is 0.0.0.0 and its broadcast 0.0.0.127. -/
theorem get_subnet_table_network_id_wraps :
    ∃ s rows r, create_subnet_from_string "255.255.255.128/25" = .ok s ∧
      get_subnet_table 9 "255.255.255.128/25" 2 = .ok rows ∧ rows[1]? = some r ∧
      subnet_table_at 1 1 = some 128 ∧
      s.ip + 1 * 128 = 4294967296 ∧ ¬ (s.ip + 1 * 128 < 2 ^ 32) ∧
      r.data.network_id = (to_ipv4 0).addr ∧
      r.data.network_id = "0.0.0.0" ∧
      r.data.broadcast_id = "0.0.0.127" := by
  have hrows : get_subnet_table 9 "255.255.255.128/25" 2 =
      .ok [{ data :=
               { network_id := "255.255.255.128"
                 host_range_start := "255.255.255.129"
                 host_range_end := "255.255.255.254"
                 broadcast_id := "255.255.255.255"
                 num_usable_hosts := 126 }
             subnet_mask := "/25 (255.255.255.128)" },
           { data :=
               { network_id := "0.0.0.0"
                 host_range_start := "0.0.0.1"
                 host_range_end := "0.0.0.126"
                 broadcast_id := "0.0.0.127"
                 num_usable_hosts := 126 }
             subnet_mask := "/25 (255.255.255.128)" }] := by
    decide
  exact ⟨create_subnet 0xFFFFFF80 25, _, _, by decide, hrows, rfl, by decide, by decide,
    by decide, by decide, rfl, rfl⟩

/-- C7 (amended): on a parent text that parses to the address `N`, and for a
requested count `n` in [1,256], `get_subnet_table` returns exactly `n` records;
with `H = 256 / 2^k` (at least 1), `2^k` the smallest power of two that is at
least `n`, record `i` has network ID `(N + i*H) mod 2^32` and broadcast
`(networkID + H - 1) mod 2^32`, and, when `H >= 2`, first host
`(networkID + 1) mod 2^32`, last host `(networkID + H - 2) mod 2^32` and
usable-host count `H - 2`; when `N + n*H <= 2^32` nothing wraps and the values are
the sums `N + i*H`, `networkID + H - 1`, `networkID + 1`, `networkID + H - 2`
themselves.  For "192.168.4.0/23" and `n = 4`: `H = 64`, network IDs 192.168.4.0,
.64, .128, .192, 62 usable hosts each. -/
theorem get_subnet_table_records (fuel n : Nat) (text : String) (s : Subnet)
    (hp : create_subnet_from_string text = .ok s) (h1 : 1 ≤ n) (h256 : n ≤ 256)
    (hf : 9 ≤ fuel) :
    (∃ k H rows, n ≤ 2 ^ k ∧ (∀ j, n ≤ 2 ^ j → k ≤ j) ∧ H = 256 / 2 ^ k ∧ 1 ≤ H ∧
      get_subnet_table fuel text n = .ok rows ∧ rows.length = n ∧
      (∀ i, i < n → ∃ r, rows[i]? = some r ∧
        r.data.network_id = (to_ipv4 ((s.ip + i * H) % 2 ^ 32)).addr ∧
        r.data.broadcast_id = (to_ipv4 (((s.ip + i * H) % 2 ^ 32 + (H - 1)) % 2 ^ 32)).addr ∧
        (2 ≤ H →
          r.data.host_range_start =
            (to_ipv4 (((s.ip + i * H) % 2 ^ 32 + 1) % 2 ^ 32)).addr ∧
          r.data.host_range_end =
            (to_ipv4 (((s.ip + i * H) % 2 ^ 32 + (H - 2)) % 2 ^ 32)).addr ∧
          r.data.num_usable_hosts = H - 2)) ∧
      (s.ip + n * H ≤ 2 ^ 32 → ∀ i, i < n → ∃ r, rows[i]? = some r ∧
        r.data.network_id = (to_ipv4 (s.ip + i * H)).addr ∧
        r.data.broadcast_id = (to_ipv4 (s.ip + i * H + (H - 1))).addr ∧
        (2 ≤ H →
          r.data.host_range_start = (to_ipv4 (s.ip + i * H + 1)).addr ∧
          r.data.host_range_end = (to_ipv4 (s.ip + i * H + (H - 2))).addr ∧
          r.data.num_usable_hosts = H - 2))) ∧
    (get_subnet_table fuel "192.168.4.0/23" 4).toOption.map
        (fun rows => rows.map (fun r => (r.data.network_id, r.data.host_range_start,
          r.data.host_range_end, r.data.broadcast_id, r.data.num_usable_hosts))) =
      some [("192.168.4.0", "192.168.4.1", "192.168.4.62", "192.168.4.63", 62),
            ("192.168.4.64", "192.168.4.65", "192.168.4.126", "192.168.4.127", 62),
            ("192.168.4.128", "192.168.4.129", "192.168.4.190", "192.168.4.191", 62),
            ("192.168.4.192", "192.168.4.193", "192.168.4.254", "192.168.4.255", 62)] := by
  refine ⟨?_, by rw [get_subnet_table_fuel _ (by decide) (by decide) hf]; decide⟩
  obtain ⟨k, rows, dd, hk, hle, hmin, hdd, hres, hlen, hget⟩ :=
    get_subnet_table_row hp h1 h256 hf
  obtain ⟨hH, hfull⟩ := hosts_pos hk
  have hH256 : 256 / 2 ^ k ≤ 256 := Nat.div_le_self _ _
  have hrow : ∀ i, i < n → ∃ r, rows[i]? = some r ∧
      r.data.network_id = (to_ipv4 ((s.ip + i * (256 / 2 ^ k)) % 2 ^ 32)).addr ∧
      r.data.broadcast_id =
        (to_ipv4 (((s.ip + i * (256 / 2 ^ k)) % 2 ^ 32 + (256 / 2 ^ k - 1)) % 2 ^ 32)).addr ∧
      (2 ≤ 256 / 2 ^ k →
        r.data.host_range_start =
          (to_ipv4 (((s.ip + i * (256 / 2 ^ k)) % 2 ^ 32 + 1) % 2 ^ 32)).addr ∧
        r.data.host_range_end =
          (to_ipv4 (((s.ip + i * (256 / 2 ^ k)) % 2 ^ 32 + (256 / 2 ^ k - 2)) % 2 ^ 32)).addr ∧
        r.data.num_usable_hosts = 256 / 2 ^ k - 2) := by
    intro i hi
    refine ⟨_, hget i hi, rfl, ?_, ?_⟩
    · show (to_ipv4 (int_to_u32 _)).addr = _
      rw [int_to_u32_add_sub_one _ _ hH]
    · intro h2
      refine ⟨?_, ?_, ?_⟩
      · show (to_ipv4 (int_to_u32 _)).addr = _
        rw [int_to_u32_add_one]
      · show (to_ipv4 (int_to_u32 _)).addr = _
        rw [int_to_u32_add_sub_two _ _ h2]
      · show int_to_u32 _ = _
        exact int_to_u32_sub_two h2 (by omega)
  refine ⟨k, 256 / 2 ^ k, rows, hle, two_pow_minimal hmin, rfl, hH, hres, hlen, hrow, ?_⟩
  intro hfit i hi
  obtain ⟨r, hr, hnet, hbc, hrest⟩ := hrow i hi
  have hmul : i * (256 / 2 ^ k) + 256 / 2 ^ k ≤ n * (256 / 2 ^ k) := by
    have h := Nat.mul_le_mul_right (256 / 2 ^ k) (Nat.succ_le_of_lt hi)
    rw [Nat.succ_mul] at h
    exact h
  generalize 256 / 2 ^ k = H at *
  generalize n * H = nH at *
  generalize i * H = x at *
  have hmod : (s.ip + x) % 2 ^ 32 = s.ip + x := Nat.mod_eq_of_lt (by omega)
  rw [hmod] at hnet hbc hrest
  have hb : (s.ip + x + (H - 1)) % 2 ^ 32 = s.ip + x + (H - 1) := Nat.mod_eq_of_lt (by omega)
  rw [hb] at hbc
  refine ⟨r, hr, hnet, hbc, ?_⟩
  intro h2
  obtain ⟨hs, he, hc⟩ := hrest h2
  have h1' : (s.ip + x + 1) % 2 ^ 32 = s.ip + x + 1 := Nat.mod_eq_of_lt (by omega)
  have h2' : (s.ip + x + (H - 2)) % 2 ^ 32 = s.ip + x + (H - 2) := Nat.mod_eq_of_lt (by omega)
  rw [h1'] at hs
  rw [h2'] at he
  exact ⟨hs, he, hc⟩

/-- C7 (amended) at the parent "10.0.0.0/8" with 3 subnets and fuel 9. -/
theorem get_subnet_table_records_witness :
    (create_subnet_from_string "10.0.0.0/8" = .ok ⟨0x0A000000, 0xFF000000⟩ ∧
      1 ≤ 3 ∧ 3 ≤ 256 ∧ 9 ≤ 9) ∧
    ∃ rows, get_subnet_table 9 "10.0.0.0/8" 3 = .ok rows ∧ rows.length = 3 := by
  obtain ⟨⟨k, H, rows, -, -, -, -, hres, hlen, -⟩, -⟩ :=
    get_subnet_table_records 9 3 "10.0.0.0/8" ⟨0x0A000000, 0xFF000000⟩ (by decide) (by decide)
      (by decide) (by decide)
  exact ⟨by decide, rows, hres, hlen⟩

/-! ## Address texts of three and four decimal parts -/

end SubnetC
